import Mathlib

/-!
Verification of `tradingagents/dataflows/alpha_vantage_fundamentals.py`.

The module under scrutiny has two parts:

* `_trim_financial_reports`: parse a text blob with Python's `json.loads`;
  on `JSONDecodeError` (or `TypeError` from a non-string argument, which
  cannot arise here since the input is always a string) return the input
  unchanged; otherwise run two `if key in data: data[key] = data[key][:N]`
  statements and re-serialize with `json.dumps(data, indent=2)`.
* four retrieval functions that build `{"symbol": ticker}` parameters,
  call the external request helper `_make_api_request`, and (for three of
  the four) pipe the raw response through the trimmer.

The embedding models Python values produced by `json.loads` as `PyVal`,
Python's dynamically-typed operations (`in`, subscription, slicing, item
assignment) as `Except PyErr` computations, `json.loads` as an executable
fueled parser and `json.dumps(·, indent=2)` (with its default
`ensure_ascii=True`) as an executable serializer.

Scope of the model: JSON number literals with a fraction or exponent part
denote Python floats, and `NaN`/`Infinity`/`-Infinity` literals denote
IEEE special values; IEEE float semantics is outside the model, so the
parser classifies such inputs as `Loaded.unmodeled` and the trimmer
returns `none` (no statement is made about them).  Likewise a `\uXXXX`
escape denoting a lone UTF-16 surrogate produces a Python string that no
Lean `String` can represent, and is classified `unmodeled`.  Every other
behaviour of the source file is modeled exactly.
-/

/-- Maximum number of annual reports retained (source constant). -/
def MAX_ANNUAL_REPORTS : Nat := 2

/-- Maximum number of quarterly reports retained (source constant). -/
def MAX_QUARTERLY_REPORTS : Nat := 4

/-- A Python value as produced by `json.loads`: `None`, `bool`, `int`,
`str`, `list`, or `dict` with string keys in insertion order.  Floats are
outside the model (see the module docstring). -/
inductive PyVal where
  | null
  | bool (b : Bool)
  | num (i : Int)
  | str (s : String)
  | arr (xs : List PyVal)
  | obj (kvs : List (String × PyVal))

/-- A Python exception as far as the trimmer can raise one past the
`except` clause: `TypeError` (from `in`, subscription or slicing on an
unsupported type) or `KeyError` (never actually reachable). -/
inductive PyErr where
  | typeError
  | keyError

/-- Lookup in a Python dict represented as an ordered association list. -/
def lookupKey : List (String × PyVal) → String → Option PyVal
  | [], _ => none
  | (k, v) :: t, key => if k = key then some v else lookupKey t key

/-- `d[key] = v` on a Python dict: update in place if the key exists
(keeping its position), else append. -/
def setKey : List (String × PyVal) → String → PyVal → List (String × PyVal)
  | [], key, v => [(key, v)]
  | (k, w) :: t, key, v => if k = key then (key, v) :: t else (k, w) :: setKey t key v

/-- Whether the character list `pat` occurs as a prefix of `l`. -/
def chStarts : List Char → List Char → Bool
  | [], _ => true
  | _ :: _, [] => false
  | a :: as, b :: bs => a = b && chStarts as bs

/-- Whether the character list `pat` occurs as a contiguous sublist of
`l`: Python's `pat in s` on strings. -/
def chContains (pat : List Char) : List Char → Bool
  | [] => chStarts pat []
  | b :: bs => chStarts pat (b :: bs) || chContains pat bs

/-- Python's `key in data` for each runtime type: key membership for a
dict, element equality for a list (where only a `str` element can equal a
string), substring test for a string, and `TypeError` for `int`, `bool`
and `None`, which are not iterable. -/
def pyContains (data : PyVal) (key : String) : Except PyErr Bool :=
  match data with
  | .obj kvs => .ok (lookupKey kvs key).isSome
  | .arr xs => .ok (xs.any fun x => match x with | .str t => t = key | _ => false)
  | .str s => .ok (chContains key.data s.data)
  | _ => .error .typeError

/-- Python's `data[key]` with a string key: dict lookup (raising
`KeyError` when absent), and `TypeError` on every other type, including
lists and strings, whose indices must be integers. -/
def pySubscript (data : PyVal) (key : String) : Except PyErr PyVal :=
  match data with
  | .obj kvs =>
    match lookupKey kvs key with
    | some v => .ok v
    | none => .error .keyError
  | _ => .error .typeError

/-- Python's `v[:n]` for `n ≥ 0`: list prefix, string prefix (by code
point), and `TypeError` on every other type (`dict` because a slice is
unhashable, `int`/`bool`/`None` because they are not subscriptable). -/
def pySliceTo (v : PyVal) (n : Nat) : Except PyErr PyVal :=
  match v with
  | .arr xs => .ok (.arr (xs.take n))
  | .str s => .ok (.str (String.mk (s.data.take n)))
  | _ => .error .typeError

/-- Python's `data[key] = v` statement: in-place dict update, `TypeError`
on other types.  In the trimmer it is only reached when `data` is a dict,
because evaluating the right-hand side has already raised otherwise. -/
def pySetItem (data : PyVal) (key : String) (v : PyVal) : Except PyErr PyVal :=
  match data with
  | .obj kvs => .ok (.obj (setKey kvs key v))
  | _ => .error .typeError

/-- One `if key in data: data[key] = data[key][:limit]` statement, with
Python's evaluation order: the membership test first, then the subscript,
then the slice, then the assignment. -/
def trimField (key : String) (limit : Nat) (data : PyVal) : Except PyErr PyVal := do
  let present ← pyContains data key
  if present then
    let fv ← pySubscript data key
    let fv2 ← pySliceTo fv limit
    pySetItem data key fv2
  else
    pure data

/-- Lines 23 to 26 of the source: trim `annualReports` to
`MAX_ANNUAL_REPORTS`, then `quarterlyReports` to `MAX_QUARTERLY_REPORTS`. -/
def trimReports (data : PyVal) : Except PyErr PyVal := do
  let d1 ← trimField "annualReports" MAX_ANNUAL_REPORTS data
  trimField "quarterlyReports" MAX_QUARTERLY_REPORTS d1

/-- Whether an optional field value survives `v[:n]`: absent, a list, or
a string. -/
def sliceableOpt : Option PyVal → Bool
  | none => true
  | some (.arr _) => true
  | some (.str _) => true
  | some _ => false

/-- Exactly the parsed values on which the two trimming statements run to
completion without raising: a dict whose report fields, when present, are
lists or strings; a list none of whose elements is one of the two report
key strings; a string containing neither report key as a substring.
`int`, `bool` and `None` always raise on the membership test. -/
def trimSafe : PyVal → Bool
  | .obj kvs =>
    sliceableOpt (lookupKey kvs "annualReports") &&
      sliceableOpt (lookupKey kvs "quarterlyReports")
  | .arr xs =>
    !(xs.any fun x => match x with | .str t => t = "annualReports" | _ => false) &&
      !(xs.any fun x => match x with | .str t => t = "quarterlyReports" | _ => false)
  | .str s =>
    !chContains "annualReports".data s.data && !chContains "quarterlyReports".data s.data
  | _ => false

/-- What one trimming statement leaves of an optional field value that it
does not raise on: a list is cut to its first `n` elements, a string to
its first `n` code points, and an absent field stays absent. -/
def trimmedOpt (n : Nat) : Option PyVal → Option PyVal
  | some (.arr l) => some (.arr (l.take n))
  | some (.str s) => some (.str (String.mk (s.data.take n)))
  | o => o

/-! ## The serializer: `json.dumps(data, indent=2)` with `ensure_ascii=True` -/

/-- The decimal digit character for `n % 10`. -/
def digitChar (n : Nat) : Char := Char.ofNat (48 + n % 10)

/-- The lowercase hexadecimal digit character for `n < 16`. -/
def hexChar (n : Nat) : Char :=
  if n < 10 then Char.ofNat (48 + n) else Char.ofNat (87 + n)

/-- Four lowercase hexadecimal digits for `n < 65536`, as in a `\uXXXX`
escape emitted by `json.dumps`. -/
def hex4 (n : Nat) : List Char :=
  [hexChar (n / 4096 % 16), hexChar (n / 256 % 16), hexChar (n / 16 % 16), hexChar (n % 16)]

/-- The decimal digits of `n`, most significant first. -/
def natDigits (n : Nat) : List Char :=
  if n < 10 then [digitChar n] else natDigits (n / 10) ++ [digitChar (n % 10)]
decreasing_by exact Nat.div_lt_self (by omega) (by omega)

/-- Python's `str` of an int: a minus sign for negatives, then the
decimal digits. -/
def intChars (i : Int) : List Char :=
  if i < 0 then '-' :: natDigits i.natAbs else natDigits i.natAbs

/-- How `json.dumps` with `ensure_ascii=True` renders one character of a
string: `"` and `\` get a backslash escape; other printable ASCII stands
for itself; the five control characters with short escapes use them; any
other character becomes `\uXXXX`, as a surrogate pair when it is beyond
the Basic Multilingual Plane. -/
def escChar (c : Char) : List Char :=
  if c = '"' then ['\\', '"']
  else if c = '\\' then ['\\', '\\']
  else if 32 ≤ c.toNat ∧ c.toNat ≤ 126 then [c]
  else if c = '\x08' then ['\\', 'b']
  else if c = '\t' then ['\\', 't']
  else if c = '\n' then ['\\', 'n']
  else if c = '\x0c' then ['\\', 'f']
  else if c = '\r' then ['\\', 'r']
  else if c.toNat < 65536 then '\\' :: 'u' :: hex4 c.toNat
  else
    ('\\' :: 'u' :: hex4 (55296 + (c.toNat - 65536) / 1024)) ++
      ('\\' :: 'u' :: hex4 (56320 + (c.toNat - 65536) % 1024))

/-- The escaped body of a JSON string literal. -/
def escBody (l : List Char) : List Char := (l.map escChar).flatten

/-- A quoted JSON string literal. -/
def quoteStr (l : List Char) : List Char := '"' :: (escBody l ++ ['"'])

/-- `n` spaces of indentation. -/
def spaces (n : Nat) : List Char := List.replicate n ' '

/-- The characters of the JSON literal `null`. -/
def nullChars : List Char := ['n', 'u', 'l', 'l']

/-- The characters of the JSON literal `true`. -/
def trueChars : List Char := ['t', 'r', 'u', 'e']

/-- The characters of the JSON literal `false`. -/
def falseChars : List Char := ['f', 'a', 'l', 's', 'e']

mutual

/-- `json.dumps(v, indent=2)` at indentation level `ind`, as a character
list: empty containers inline as `[]` and `{}`; non-empty containers put
every item on its own line indented by `ind + 2`, separated by commas,
with the closing bracket indented by `ind`; keys are separated from
values by `": "`. -/
def dumpVal (ind : Nat) : PyVal → List Char
  | .null => nullChars
  | .bool true => trueChars
  | .bool false => falseChars
  | .num i => intChars i
  | .str s => quoteStr s.data
  | .arr [] => ['[', ']']
  | .arr (x :: xs) =>
    '[' :: '\n' :: (spaces (ind + 2) ++ dumpVal (ind + 2) x ++ tailItems (ind + 2) xs ++
      '\n' :: (spaces ind ++ [']']))
  | .obj [] => ['\x7b', '\x7d']
  | .obj ((k, v) :: kvs) =>
    '\x7b' :: '\n' :: (spaces (ind + 2) ++ quoteStr k.data ++ ':' :: ' ' ::
      (dumpVal (ind + 2) v ++ tailFields (ind + 2) kvs ++ '\n' :: (spaces ind ++ ['\x7d'])))

/-- The remaining items of a non-empty array: `",\n" ++ indentation ++
item` for each. -/
def tailItems (ind : Nat) : List PyVal → List Char
  | [] => []
  | y :: ys => ',' :: '\n' :: (spaces ind ++ dumpVal ind y ++ tailItems ind ys)

/-- The remaining fields of a non-empty object: `",\n" ++ indentation ++
key ++ ": " ++ value` for each. -/
def tailFields (ind : Nat) : List (String × PyVal) → List Char
  | [] => []
  | (k, v) :: kvs =>
    ',' :: '\n' :: (spaces ind ++ quoteStr k.data ++ ':' :: ' ' ::
      (dumpVal ind v ++ tailFields ind kvs))

end

/-- `json.dumps(v, indent=2)` as a string (line 28 of the source). -/
def json_dumps (v : PyVal) : String := String.mk (dumpVal 0 v)

/-! ## The parser: `json.loads` -/

/-- The three-valued result of a parsing step: decode failure, an input
outside the model (a float literal or a lone-surrogate escape), or a
parsed value with the remaining input. -/
inductive PRes (α : Type) where
  | fail : PRes α
  | unmod : PRes α
  | ok : α → List Char → PRes α

/-- JSON whitespace: space, tab, newline, carriage return. -/
def isWsCh (c : Char) : Bool := c = ' ' || c = '\t' || c = '\n' || c = '\r'

/-- An ASCII decimal digit. -/
def isDigitCh (c : Char) : Bool := 48 ≤ c.toNat && c.toNat ≤ 57

/-- The input does not begin with a decimal digit. -/
def noDigitHead : List Char → Bool
  | [] => true
  | c :: _ => !isDigitCh c

/-- The input does not begin with anything that could extend a number
literal: a digit, a decimal point, or an exponent marker.  What follows a
serialized number in a `json.dumps` output always satisfies this. -/
def numGuard : List Char → Bool
  | [] => true
  | c :: _ => !(isDigitCh c || c = '.' || c = 'e' || c = 'E')

/-- Skip JSON whitespace. -/
def skipWs : List Char → List Char
  | [] => []
  | c :: cs => if isWsCh c then skipWs cs else c :: cs

/-- The value of one hexadecimal digit, either case. -/
def parseHexDigit (c : Char) : Option Nat :=
  if 48 ≤ c.toNat ∧ c.toNat ≤ 57 then some (c.toNat - 48)
  else if 97 ≤ c.toNat ∧ c.toNat ≤ 102 then some (c.toNat - 87)
  else if 65 ≤ c.toNat ∧ c.toNat ≤ 70 then some (c.toNat - 55)
  else none

/-- Four hexadecimal digits, as after `\u`. -/
def parseHex4 : List Char → Option (Nat × List Char)
  | a :: b :: c :: d :: rest =>
    match parseHexDigit a, parseHexDigit b, parseHexDigit c, parseHexDigit d with
    | some x, some y, some z, some w => some (((x * 16 + y) * 16 + z) * 16 + w, rest)
    | _, _, _, _ => none
  | _ => none

/-- A `\uXXXX` escape, after the `\u`, as `json.loads` reads it: four
hex digits; a high surrogate followed by a low-surrogate escape combines
into one code point, while a `\uXXXX` denoting a lone surrogate yields a
Python string outside the model (`unmod`); malformed hex digits are a
decode error. -/
def parseUEsc (r : List Char) : PRes Char :=
  match parseHex4 r with
  | none => .fail
  | some (n, r2) =>
    if n < 55296 ∨ 57343 < n then .ok (Char.ofNat n) r2
    else if 56320 ≤ n then .unmod
    else
      match r2 with
      | '\\' :: 'u' :: r3 =>
        match parseHex4 r3 with
        | none => .fail
        | some (m, r4) =>
          if 56320 ≤ m ∧ m ≤ 57343 then
            .ok (Char.ofNat (65536 + (n - 55296) * 1024 + (m - 56320))) r4
          else .unmod
      | _ => .unmod

/-- One escape sequence, after the backslash, as `json.loads` reads it:
a short escape, or a `\uXXXX` escape; anything else is a decode error. -/
def parseEsc : List Char → PRes Char
  | '"' :: r => .ok '"' r
  | '\\' :: r => .ok '\\' r
  | '/' :: r => .ok '/' r
  | 'b' :: r => .ok '\x08' r
  | 'f' :: r => .ok '\x0c' r
  | 'n' :: r => .ok '\n' r
  | 'r' :: r => .ok '\r' r
  | 't' :: r => .ok '\t' r
  | 'u' :: r => parseUEsc r
  | _ => .fail

/-- The body of a JSON string literal after the opening quote, with fuel
at least the input length: the strict mode of `json.loads` accepts any
character at or above `U+0020` and rejects bare control characters. -/
def parseStrBody : Nat → List Char → PRes (List Char)
  | 0, _ => .fail
  | _ + 1, [] => .fail
  | f + 1, c :: cs =>
    if c = '"' then .ok [] cs
    else if c = '\\' then
      match parseEsc cs with
      | .fail => .fail
      | .unmod => .unmod
      | .ok ch r =>
        match parseStrBody f r with
        | .fail => .fail
        | .unmod => .unmod
        | .ok l rest => .ok (ch :: l) rest
    else if c.toNat < 32 then .fail
    else
      match parseStrBody f cs with
      | .fail => .fail
      | .unmod => .unmod
      | .ok l rest => .ok (c :: l) rest

/-- Accumulate a run of decimal digits into a number, stopping at the
first non-digit. -/
def digitsAcc (acc : Nat) : List Char → Nat × List Char
  | [] => (acc, [])
  | c :: cs => if isDigitCh c then digitsAcc (acc * 10 + (c.toNat - 48)) cs else (acc, c :: cs)

/-- Whether the input starts with `[+-]?digit`, i.e. whether an `e` just
read begins a well-formed exponent part. -/
def isExpStart : List Char → Bool
  | '+' :: c :: _ => isDigitCh c
  | '-' :: c :: _ => isDigitCh c
  | c :: _ => isDigitCh c
  | [] => false

/-- After the integer part of a number: a fraction part `.digit` or an
exponent part `e[+-]?digit` makes the literal a Python float, which is
outside the model; otherwise the integer stands on its own and the
suffix is left in the remaining input. -/
def checkFloatSuffix (n : Nat) : List Char → PRes Nat
  | [] => .ok n []
  | c :: cs =>
    if c = '.' then
      match cs with
      | c2 :: _ => if isDigitCh c2 then .unmod else .ok n (c :: cs)
      | [] => .ok n (c :: cs)
    else if c = 'e' ∨ c = 'E' then
      if isExpStart cs then .unmod else .ok n (c :: cs)
    else .ok n (c :: cs)

/-- The unsigned integer part of a JSON number, per the grammar
`0|[1-9][0-9]*`: a leading `0` is the whole integer part, and any digits
after it are left to trip the surrounding context, exactly as the
`NUMBER_RE` match in Python's scanner does. -/
def parseNumTail : List Char → PRes Nat
  | [] => .fail
  | c :: cs =>
    if c = '0' then checkFloatSuffix 0 cs
    else if isDigitCh c then
      match digitsAcc (c.toNat - 48) cs with
      | (n, r) => checkFloatSuffix n r
    else .fail

mutual

/-- One JSON value, with leading whitespace skipped, following
`json.loads`: objects, arrays, strings, `true`/`false`/`null`, the
non-standard `NaN`/`Infinity`/`-Infinity` accepted by Python (floats,
hence outside the model), and integer numbers.  Fuel decreases on every
mutual recursion; `2 * length + 2` suffices for any input. -/
def parseVal : Nat → List Char → PRes PyVal
  | 0, _ => .fail
  | f + 1, cs0 =>
    match skipWs cs0 with
    | [] => .fail
    | c :: r =>
      if c = '\x7b' then
        match skipWs r with
        | [] => .fail
        | c1 :: r1 =>
          if c1 = '\x7d' then .ok (.obj []) r1
          else parseMembers f [] (c1 :: r1)
      else if c = '[' then
        match skipWs r with
        | [] => .fail
        | c1 :: r1 =>
          if c1 = ']' then .ok (.arr []) r1
          else parseItems f [] (c1 :: r1)
      else if c = '"' then
        match parseStrBody r.length r with
        | .fail => .fail
        | .unmod => .unmod
        | .ok l rest => .ok (.str (String.mk l)) rest
      else if chStarts "true".data (c :: r) then .ok (.bool true) ((c :: r).drop 4)
      else if chStarts "false".data (c :: r) then .ok (.bool false) ((c :: r).drop 5)
      else if chStarts "null".data (c :: r) then .ok .null ((c :: r).drop 4)
      else if chStarts "NaN".data (c :: r) then .unmod
      else if chStarts "Infinity".data (c :: r) then .unmod
      else if c = '-' then
        if chStarts "Infinity".data r then .unmod
        else
          match parseNumTail r with
          | .fail => .fail
          | .unmod => .unmod
          | .ok n rest => .ok (.num (-(n : Int))) rest
      else
        match parseNumTail (c :: r) with
        | .fail => .fail
        | .unmod => .unmod
        | .ok n rest => .ok (.num (n : Int)) rest

/-- The items of a non-empty array, after the opening bracket and
leading whitespace, accumulating parsed items in order. -/
def parseItems : Nat → List PyVal → List Char → PRes PyVal
  | 0, _, _ => .fail
  | f + 1, acc, cs =>
    match parseVal f cs with
    | .fail => .fail
    | .unmod => .unmod
    | .ok v rest =>
      match skipWs rest with
      | [] => .fail
      | c2 :: r2 =>
        if c2 = ',' then parseItems f (acc ++ [v]) r2
        else if c2 = ']' then .ok (.arr (acc ++ [v])) r2
        else .fail

/-- The members of a non-empty object, after the opening brace and
leading whitespace: each member is a quoted key, a colon, and a value;
a repeated key overwrites the earlier value in place, as assignment
into a Python dict does. -/
def parseMembers : Nat → List (String × PyVal) → List Char → PRes PyVal
  | 0, _, _ => .fail
  | f + 1, acc, cs =>
    match skipWs cs with
    | [] => .fail
    | c :: r =>
      if c = '"' then
        match parseStrBody r.length r with
        | .fail => .fail
        | .unmod => .unmod
        | .ok kl rest =>
          match skipWs rest with
          | [] => .fail
          | c2 :: r2 =>
            if c2 = ':' then
              match parseVal f r2 with
              | .fail => .fail
              | .unmod => .unmod
              | .ok v r3 =>
                match skipWs r3 with
                | [] => .fail
                | c3 :: r4 =>
                  if c3 = ',' then parseMembers f (setKey acc (String.mk kl) v) r4
                  else if c3 = '\x7d' then .ok (.obj (setKey acc (String.mk kl) v)) r4
                  else .fail
            else .fail
      else .fail

end

/-- The outcome of `json.loads` on a string: a `JSONDecodeError`, an
input outside the model (float payloads, lone surrogates), or a value. -/
inductive Loaded where
  | fail
  | unmodeled
  | val (v : PyVal)

/-- `json.loads` on a string: parse one value and require only trailing
whitespace after it (anything else is the `Extra data` decode error). -/
def json_loads (s : String) : Loaded :=
  match parseVal (2 * s.length + 2) s.data with
  | .fail => .fail
  | .unmod => .unmodeled
  | .ok v rest =>
    match skipWs rest with
    | [] => .val v
    | _ => .fail

/-- `_trim_financial_reports` (lines 11 to 28 of the source): on a
decode failure return the input unchanged; otherwise run the two
trimming statements, which can raise (`Except.error`), and re-serialize.
`none` means the input is outside the model (see the module docstring);
the result is otherwise `some` of the returned string or of the raised
exception. -/
def _trim_financial_reports (response_text : String) : Option (Except PyErr String) :=
  match json_loads response_text with
  | .fail => some (.ok response_text)
  | .unmodeled => none
  | .val data => some ((trimReports data).map json_dumps)

/-! ## The four retrieval functions

`_make_api_request` lives in `alpha_vantage_common` and is an external
collaborator (a network call); the functions are parameterized over it.
A Python `params` dict literal with the single key `"symbol"` is the
one-entry association list. -/

/-- `get_fundamentals`: request the `OVERVIEW` report and return the raw
response text with no trimming. -/
def get_fundamentals (_make_api_request : String → List (String × String) → String)
    (ticker : String) (curr_date : Option String) : String :=
  _make_api_request "OVERVIEW" [("symbol", ticker)]

/-- `get_balance_sheet`: request the `BALANCE_SHEET` report and trim it. -/
def get_balance_sheet (_make_api_request : String → List (String × String) → String)
    (ticker : String) (freq : String) (curr_date : Option String) :
    Option (Except PyErr String) :=
  _trim_financial_reports (_make_api_request "BALANCE_SHEET" [("symbol", ticker)])

/-- `get_cashflow`: request the `CASH_FLOW` report and trim it. -/
def get_cashflow (_make_api_request : String → List (String × String) → String)
    (ticker : String) (freq : String) (curr_date : Option String) :
    Option (Except PyErr String) :=
  _trim_financial_reports (_make_api_request "CASH_FLOW" [("symbol", ticker)])

/-- `get_income_statement`: request the `INCOME_STATEMENT` report and
trim it. -/
def get_income_statement (_make_api_request : String → List (String × String) → String)
    (ticker : String) (freq : String) (curr_date : Option String) :
    Option (Except PyErr String) :=
  _trim_financial_reports (_make_api_request "INCOME_STATEMENT" [("symbol", ticker)])

/-! ## Invariants and measures used by the proofs -/

/-- The values `json.loads` can actually produce: every object has
pairwise distinct keys (a repeated key in the input overwrites in
place). -/
inductive WfVal : PyVal → Prop where
  | null : WfVal .null
  | bool (b : Bool) : WfVal (.bool b)
  | num (i : Int) : WfVal (.num i)
  | str (s : String) : WfVal (.str s)
  | arr (xs : List PyVal) : (∀ v ∈ xs, WfVal v) → WfVal (.arr xs)
  | obj (kvs : List (String × PyVal)) : (∀ kv ∈ kvs, WfVal kv.2) →
      (kvs.map Prod.fst).Nodup → WfVal (.obj kvs)

mutual

/-- Fuel sufficient for the parser to read a serialized value back. -/
def pvFuel : PyVal → Nat
  | .null => 1
  | .bool _ => 1
  | .num _ => 1
  | .str _ => 1
  | .arr xs => 1 + pvFuelItems xs
  | .obj kvs => 1 + pvFuelFields kvs

/-- Fuel sufficient to read the items of an array. -/
def pvFuelItems : List PyVal → Nat
  | [] => 1
  | x :: xs => pvFuel x + 1 + pvFuelItems xs

/-- Fuel sufficient to read the fields of an object. -/
def pvFuelFields : List (String × PyVal) → Nat
  | [] => 1
  | (_, v) :: kvs => pvFuel v + 1 + pvFuelFields kvs

end

example :
    trimReports (.obj [("a", .num 1), ("annualReports", .arr [.num 1, .num 2, .num 3])]) =
      .ok (.obj [("a", .num 1), ("annualReports", .arr [.num 1, .num 2])]) := rfl

example : trimReports (.num 5) = .error .typeError := rfl

example : trimReports (.obj [("annualReports", .null)]) = .error .typeError := rfl

example : trimReports (.arr [.str "annualReports"]) = .error .typeError := rfl

example : trimReports (.str "see annualReports") = .error .typeError := rfl

example : trimReports (.str "harmless") = .ok (.str "harmless") := rfl

example : json_loads "" = .fail := rfl
example : json_loads "5" = .val (.num 5) := rfl
example : json_loads "-12" = .val (.num (-12)) := rfl
example : json_loads "-0" = .val (.num 0) := rfl
example : json_loads "true" = .val (.bool true) := rfl
example : json_loads "null" = .val .null := rfl
example : json_loads " \t\r\n5 " = .val (.num 5) := rfl
example : json_loads "truex" = .fail := rfl
example : json_loads "01" = .fail := rfl
example : json_loads "1.5" = .unmodeled := rfl
example : json_loads "0." = .fail := rfl
example : json_loads "0e" = .fail := rfl
example : json_loads "2e3" = .unmodeled := rfl
example : json_loads "Infinity" = .unmodeled := rfl
example : json_loads "-Infinity" = .unmodeled := rfl
example : json_loads "NaN" = .unmodeled := rfl
example : json_loads "[]" = .val (.arr []) := rfl
example : json_loads "[ ]" = .val (.arr []) := rfl
example : json_loads "[1, [2], \"x\"]" = .val (.arr [.num 1, .arr [.num 2], .str "x"]) := rfl
example : json_loads "[1,]" = .fail := rfl
example : json_loads "[,1]" = .fail := rfl
example : json_loads "\x7b\x7d" = .val (.obj []) := rfl
example : json_loads "\x7b \x7d" = .val (.obj []) := rfl
example :
    json_loads "\x7b\"a\" : 1 , \"b\": [true]\x7d" =
      .val (.obj [("a", .num 1), ("b", .arr [.bool true])]) := rfl
example :
    json_loads "\x7b\"a\":1,\"b\":2,\"a\":3\x7d" =
      .val (.obj [("a", .num 3), ("b", .num 2)]) := rfl
example : json_loads "\x7b\"a\":1,\x7d" = .fail := rfl
example : json_loads "\"caf\\u00e9\"" = .val (.str "café") := rfl
example : json_loads "\"\\ud83d\\ude00\"" = .val (.str "😀") := rfl
example : json_loads "\"\\ud800\"" = .unmodeled := rfl
example : json_loads "\"a\\/b\\n\"" = .val (.str "a/b\n") := rfl
example : json_loads "\"\x01\"" = .fail := rfl
example : json_loads "\"unterminated" = .fail := rfl

example : _trim_financial_reports "" = some (.ok "") := rfl
example : _trim_financial_reports "not json" = some (.ok "not json") := rfl
example : _trim_financial_reports "5" = some (.error .typeError) := rfl
example : _trim_financial_reports "1.5" = none := rfl

example : json_dumps (.obj []) = "\x7b\x7d" := by
  simp [json_dumps, dumpVal]

example :
    json_dumps (.obj [("a", .num 1), ("b", .arr [.num 1, .num 2]), ("c", .obj [])]) =
      "\x7b\n  \"a\": 1,\n  \"b\": [\n    1,\n    2\n  ],\n  \"c\": \x7b\x7d\n\x7d" := by
  simp [json_dumps, dumpVal, tailItems, tailFields, quoteStr, escBody, escChar, intChars,
    natDigits, spaces, digitChar]

example : json_dumps (.str "é") = "\"\\u00e9\"" := by
  simp [json_dumps, dumpVal, quoteStr, escBody, escChar, hex4, hexChar]

/-! ## Small reduction lemmas for the `Except` monad -/

theorem exBindOk {α β : Type} (a : α) (f : α → Except PyErr β) :
    (Except.ok a : Except PyErr α) >>= f = f a := rfl

theorem exBindErr {α β : Type} (e : PyErr) (f : α → Except PyErr β) :
    (Except.error e : Except PyErr α) >>= f = .error e := rfl

theorem exPure {α : Type} (a : α) : (pure a : Except PyErr α) = .ok a := rfl

theorem exMapOk {α β : Type} (f : α → β) (a : α) :
    Except.map f (.ok a : Except PyErr α) = .ok (f a) := rfl

theorem exMapErr {α β : Type} (f : α → β) (e : PyErr) :
    Except.map f (.error e : Except PyErr α) = .error e := rfl

/-! ## Association-list lemmas -/

theorem lookupKey_setKey_self (d : List (String × PyVal)) (k : String) (v : PyVal) :
    lookupKey (setKey d k v) k = some v := by
  induction d with
  | nil => simp [setKey, lookupKey]
  | cons kv t ih =>
    obtain ⟨a, w⟩ := kv
    by_cases h : a = k
    · simp [setKey, h, lookupKey]
    · simp [setKey, h, lookupKey, ih]

theorem lookupKey_setKey_ne (d : List (String × PyVal)) (k k' : String) (v : PyVal)
    (h : k' ≠ k) : lookupKey (setKey d k v) k' = lookupKey d k' := by
  induction d with
  | nil => simp [setKey, lookupKey, if_neg (Ne.symm h)]
  | cons kv t ih =>
    obtain ⟨a, w⟩ := kv
    by_cases ha : a = k
    · subst ha
      simp [setKey, lookupKey, if_neg (Ne.symm h)]
    · simp only [setKey, if_neg ha, lookupKey]
      by_cases ha' : a = k'
      · simp [ha']
      · simp [ha', ih]

theorem lookupKey_eq_none_iff (d : List (String × PyVal)) (k : String) :
    lookupKey d k = none ↔ k ∉ d.map Prod.fst := by
  induction d with
  | nil => simp [lookupKey]
  | cons kv t ih =>
    obtain ⟨a, w⟩ := kv
    by_cases h : a = k
    · simp [lookupKey, h]
    · simp [lookupKey, h, ih, Ne.symm h]

theorem keys_setKey_isSome (d : List (String × PyVal)) (k : String) (v : PyVal)
    (h : (lookupKey d k).isSome) : (setKey d k v).map Prod.fst = d.map Prod.fst := by
  induction d with
  | nil => simp [lookupKey] at h
  | cons kv t ih =>
    obtain ⟨a, w⟩ := kv
    by_cases ha : a = k
    · simp [setKey, ha]
    · simp only [lookupKey, if_neg ha] at h
      simp [setKey, ha, ih h]

theorem setKey_of_lookup_none (d : List (String × PyVal)) (k : String) (v : PyVal)
    (h : lookupKey d k = none) : setKey d k v = d ++ [(k, v)] := by
  induction d with
  | nil => simp [setKey]
  | cons kv t ih =>
    obtain ⟨a, w⟩ := kv
    by_cases ha : a = k
    · simp [lookupKey, ha] at h
    · simp only [lookupKey, if_neg ha] at h
      simp [setKey, ha, ih h]

theorem nodup_keys_setKey (d : List (String × PyVal)) (k : String) (v : PyVal)
    (h : (d.map Prod.fst).Nodup) : ((setKey d k v).map Prod.fst).Nodup := by
  cases hl : lookupKey d k with
  | some w => rw [keys_setKey_isSome d k v (by simp [hl])]; exact h
  | none =>
    rw [setKey_of_lookup_none d k v hl]
    have hk : k ∉ d.map Prod.fst := (lookupKey_eq_none_iff d k).mp hl
    simp only [List.map_append, List.map_cons, List.map_nil]
    exact List.Nodup.append h (List.nodup_singleton k)
      (by intro a ha hb; simp at hb; subst hb; exact hk ha)

theorem mem_setKey (d : List (String × PyVal)) (k : String) (v : PyVal) :
    ∀ kv ∈ setKey d k v, kv = (k, v) ∨ kv ∈ d := by
  induction d with
  | nil => simp [setKey]
  | cons kv0 t ih =>
    obtain ⟨a, w⟩ := kv0
    by_cases ha : a = k
    · intro kv hkv
      simp only [setKey, if_pos ha] at hkv
      rcases List.mem_cons.mp hkv with h | h
      · exact Or.inl h
      · exact Or.inr (List.mem_cons_of_mem _ h)
    · intro kv hkv
      simp only [setKey, if_neg ha] at hkv
      rcases List.mem_cons.mp hkv with h | h
      · exact Or.inr (by simp [h])
      · rcases ih kv h with h' | h'
        · exact Or.inl h'
        · exact Or.inr (List.mem_cons_of_mem _ h')

theorem setKey_setKey (d : List (String × PyVal)) (k : String) (v w : PyVal) :
    setKey (setKey d k v) k w = setKey d k w := by
  induction d with
  | nil => simp [setKey]
  | cons kv t ih =>
    obtain ⟨a, u⟩ := kv
    by_cases ha : a = k
    · simp [setKey, ha]
    · simp [setKey, ha, ih]

/-! ## How one trimming statement behaves on each shape of value -/

theorem trimField_obj_absent (d : List (String × PyVal)) (key : String) (n : Nat)
    (h : lookupKey d key = none) : trimField key n (.obj d) = .ok (.obj d) := by
  simp [trimField, pyContains, h, exBindOk, exPure]

theorem trimField_obj_arr (d : List (String × PyVal)) (key : String) (n : Nat)
    (l : List PyVal) (h : lookupKey d key = some (.arr l)) :
    trimField key n (.obj d) = .ok (.obj (setKey d key (.arr (l.take n)))) := by
  simp [trimField, pyContains, pySubscript, pySliceTo, pySetItem, h, exBindOk, exPure]

theorem trimField_obj_str (d : List (String × PyVal)) (key : String) (n : Nat)
    (s : String) (h : lookupKey d key = some (.str s)) :
    trimField key n (.obj d) = .ok (.obj (setKey d key (.str (String.mk (s.data.take n))))) := by
  simp [trimField, pyContains, pySubscript, pySliceTo, pySetItem, h, exBindOk, exPure]

theorem trimField_obj_bad (d : List (String × PyVal)) (key : String) (n : Nat)
    (v : PyVal) (h : lookupKey d key = some v) (hv : sliceableOpt (some v) = false) :
    trimField key n (.obj d) = .error .typeError := by
  cases v with
  | arr xs => simp [sliceableOpt] at hv
  | str s => simp [sliceableOpt] at hv
  | null => simp [trimField, pyContains, pySubscript, pySliceTo, h, exBindOk, exBindErr]
  | bool b => simp [trimField, pyContains, pySubscript, pySliceTo, h, exBindOk, exBindErr]
  | num i => simp [trimField, pyContains, pySubscript, pySliceTo, h, exBindOk, exBindErr]
  | obj kvs => simp [trimField, pyContains, pySubscript, pySliceTo, h, exBindOk, exBindErr]

theorem trimField_arr (xs : List PyVal) (key : String) (n : Nat) :
    trimField key n (.arr xs) =
      if xs.any (fun x => match x with | .str t => t = key | _ => false) then
        .error .typeError
      else .ok (.arr xs) := by
  by_cases h : xs.any (fun x => match x with | .str t => t = key | _ => false)
  · simp [trimField, pyContains, pySubscript, h, exBindOk, exBindErr]
  · simp [trimField, pyContains, pySubscript, h, exBindOk, exPure]

theorem trimField_str (s : String) (key : String) (n : Nat) :
    trimField key n (.str s) =
      if chContains key.data s.data then .error .typeError else .ok (.str s) := by
  by_cases h : chContains key.data s.data
  · simp [trimField, pyContains, pySubscript, h, exBindOk, exBindErr]
  · simp [trimField, pyContains, pySubscript, h, exBindOk, exPure]

example : trimField "k" 2 (.num 3) = .error .typeError := rfl
example : trimField "k" 2 (.bool true) = .error .typeError := rfl
example : trimField "k" 2 .null = .error .typeError := rfl

theorem setKey_eq_self (d : List (String × PyVal)) (k : String) (v : PyVal)
    (h : lookupKey d k = some v) : setKey d k v = d := by
  induction d with
  | nil => simp [lookupKey] at h
  | cons kv t ih =>
    obtain ⟨a, w⟩ := kv
    by_cases ha : a = k
    · subst ha
      have hw : w = v := by simpa [lookupKey] using h
      subst hw
      simp [setKey]
    · simp only [lookupKey, if_neg ha] at h
      simp [setKey, ha, ih h]

theorem trimField_obj_sliceable (d : List (String × PyVal)) (key : String) (n : Nat)
    (h : sliceableOpt (lookupKey d key) = true) :
    ∃ d', trimField key n (.obj d) = .ok (.obj d') ∧
      lookupKey d' key = trimmedOpt n (lookupKey d key) ∧
      (∀ k, k ≠ key → lookupKey d' k = lookupKey d k) ∧
      ((d.map Prod.fst).Nodup → (d'.map Prod.fst).Nodup) ∧
      (∀ kv ∈ d', kv ∈ d ∨ (kv.1 = key ∧ some kv.2 = trimmedOpt n (lookupKey d key))) := by
  cases hl : lookupKey d key with
  | none =>
    refine ⟨d, trimField_obj_absent d key n hl, ?_, ?_, fun hh => hh, fun kv hkv => Or.inl hkv⟩
    · simp [hl, trimmedOpt]
    · intro k _
      rfl
  | some v =>
    cases v with
    | arr l =>
      refine ⟨setKey d key (.arr (l.take n)), trimField_obj_arr d key n l hl, ?_, ?_, ?_, ?_⟩
      · simp [hl, trimmedOpt, lookupKey_setKey_self]
      · intro k hk
        exact lookupKey_setKey_ne d key k _ hk
      · intro hnd
        exact nodup_keys_setKey d key _ hnd
      · intro kv hkv
        rcases mem_setKey d key _ kv hkv with h' | h'
        · exact Or.inr (by simp [h', hl, trimmedOpt])
        · exact Or.inl h'
    | str s =>
      refine ⟨setKey d key (.str (String.mk (s.data.take n))), trimField_obj_str d key n s hl,
        ?_, ?_, ?_, ?_⟩
      · simp [hl, trimmedOpt, lookupKey_setKey_self]
      · intro k hk
        exact lookupKey_setKey_ne d key k _ hk
      · intro hnd
        exact nodup_keys_setKey d key _ hnd
      · intro kv hkv
        rcases mem_setKey d key _ kv hkv with h' | h'
        · exact Or.inr (by simp [h', hl, trimmedOpt])
        · exact Or.inl h'
    | null => simp [hl, sliceableOpt] at h
    | bool b => simp [hl, sliceableOpt] at h
    | num i => simp [hl, sliceableOpt] at h
    | obj kvs => simp [hl, sliceableOpt] at h

theorem trimReports_obj_ok (d : List (String × PyVal))
    (ha : sliceableOpt (lookupKey d "annualReports") = true)
    (hq : sliceableOpt (lookupKey d "quarterlyReports") = true) :
    ∃ d', trimReports (.obj d) = .ok (.obj d') ∧
      lookupKey d' "annualReports" =
        trimmedOpt MAX_ANNUAL_REPORTS (lookupKey d "annualReports") ∧
      lookupKey d' "quarterlyReports" =
        trimmedOpt MAX_QUARTERLY_REPORTS (lookupKey d "quarterlyReports") ∧
      (∀ k, k ≠ "annualReports" → k ≠ "quarterlyReports" →
        lookupKey d' k = lookupKey d k) ∧
      ((d.map Prod.fst).Nodup → (d'.map Prod.fst).Nodup) ∧
      (∀ kv ∈ d', kv ∈ d ∨
        (kv.1 = "annualReports" ∧
          some kv.2 = trimmedOpt MAX_ANNUAL_REPORTS (lookupKey d "annualReports")) ∨
        (kv.1 = "quarterlyReports" ∧
          some kv.2 = trimmedOpt MAX_QUARTERLY_REPORTS (lookupKey d "quarterlyReports"))) := by
  have hne : ("quarterlyReports" : String) ≠ "annualReports" := by decide
  obtain ⟨d1, h1, h1k, h1o, h1n, h1m⟩ :=
    trimField_obj_sliceable d "annualReports" MAX_ANNUAL_REPORTS ha
  have hq1 : lookupKey d1 "quarterlyReports" = lookupKey d "quarterlyReports" :=
    h1o "quarterlyReports" hne
  obtain ⟨d2, h2, h2k, h2o, h2n, h2m⟩ :=
    trimField_obj_sliceable d1 "quarterlyReports" MAX_QUARTERLY_REPORTS (hq1 ▸ hq)
  refine ⟨d2, ?_, ?_, ?_, ?_, ?_, ?_⟩
  · simp [trimReports, h1, h2, exBindOk]
  · rw [h2o "annualReports" (Ne.symm hne), h1k]
  · rw [h2k, hq1]
  · intro k hk1 hk2
    rw [h2o k hk2, h1o k hk1]
  · intro hnd
    exact h2n (h1n hnd)
  · intro kv hkv
    rcases h2m kv hkv with h' | h'
    · rcases h1m kv h' with h'' | h''
      · exact Or.inl h''
      · exact Or.inr (Or.inl h'')
    · rw [hq1] at h'
      exact Or.inr (Or.inr h')

theorem trimReports_obj_err (d : List (String × PyVal))
    (h : ¬(sliceableOpt (lookupKey d "annualReports") = true ∧
      sliceableOpt (lookupKey d "quarterlyReports") = true)) :
    trimReports (.obj d) = .error .typeError := by
  have hne : ("quarterlyReports" : String) ≠ "annualReports" := by decide
  by_cases ha : sliceableOpt (lookupKey d "annualReports") = true
  · have hq : sliceableOpt (lookupKey d "quarterlyReports") = false := by
      cases hqq : sliceableOpt (lookupKey d "quarterlyReports") with
      | false => rfl
      | true => exact absurd ⟨ha, hqq⟩ h
    obtain ⟨d1, h1, h1k, h1o, _, _⟩ :=
      trimField_obj_sliceable d "annualReports" MAX_ANNUAL_REPORTS ha
    have hq1 : lookupKey d1 "quarterlyReports" = lookupKey d "quarterlyReports" :=
      h1o "quarterlyReports" hne
    cases hl : lookupKey d "quarterlyReports" with
    | none => rw [hl] at hq; simp [sliceableOpt] at hq
    | some v =>
      have : trimField "quarterlyReports" MAX_QUARTERLY_REPORTS (.obj d1) =
          .error .typeError :=
        trimField_obj_bad d1 _ _ v (by rw [hq1, hl]) (by rw [← hl]; exact hq)
      simp [trimReports, h1, this, exBindOk]
  · have ha' : sliceableOpt (lookupKey d "annualReports") = false := by
      cases hbb : sliceableOpt (lookupKey d "annualReports") with
      | false => rfl
      | true => exact absurd hbb ha
    cases hl : lookupKey d "annualReports" with
    | none => rw [hl] at ha'; simp [sliceableOpt] at ha'
    | some v =>
      have : trimField "annualReports" MAX_ANNUAL_REPORTS (.obj d) = .error .typeError :=
        trimField_obj_bad d _ _ v hl (by rw [← hl]; exact ha')
      simp [trimReports, this, exBindErr]

theorem trimReports_arr_safe (xs : List PyVal) (h : trimSafe (.arr xs) = true) :
    trimReports (.arr xs) = .ok (.arr xs) := by
  simp only [trimSafe, Bool.and_eq_true, Bool.not_eq_true'] at h
  simp [trimReports, trimField_arr, h.1, h.2, exBindOk]

theorem trimReports_arr_err (xs : List PyVal) (h : trimSafe (.arr xs) = false) :
    trimReports (.arr xs) = .error .typeError := by
  simp only [trimSafe, Bool.and_eq_false_iff, Bool.not_eq_false'] at h
  rcases h with h | h
  · simp [trimReports, trimField_arr, h, exBindErr]
  · by_cases h1 : xs.any (fun x => match x with | .str t => t = "annualReports" | _ => false)
    · simp [trimReports, trimField_arr, h1, exBindErr]
    · simp [trimReports, trimField_arr, h1, h, exBindOk, exBindErr]

theorem trimReports_str_safe (s : String) (h : trimSafe (.str s) = true) :
    trimReports (.str s) = .ok (.str s) := by
  simp only [trimSafe, Bool.and_eq_true, Bool.not_eq_true'] at h
  simp [trimReports, trimField_str, h.1, h.2, exBindOk]

theorem trimReports_str_err (s : String) (h : trimSafe (.str s) = false) :
    trimReports (.str s) = .error .typeError := by
  simp only [trimSafe, Bool.and_eq_false_iff, Bool.not_eq_false'] at h
  rcases h with h | h
  · simp [trimReports, trimField_str, h, exBindErr]
  · by_cases h1 : chContains "annualReports".data s.data
    · simp [trimReports, trimField_str, h1, exBindErr]
    · simp [trimReports, trimField_str, h1, h, exBindOk, exBindErr]

theorem sliceableOpt_trimmedOpt (n : Nat) (o : Option PyVal)
    (h : sliceableOpt o = true) : sliceableOpt (trimmedOpt n o) = true := by
  cases o with
  | none => simp [trimmedOpt, sliceableOpt]
  | some v =>
    cases v with
    | arr l => simp [trimmedOpt, sliceableOpt]
    | str s => simp [trimmedOpt, sliceableOpt]
    | null => simp [sliceableOpt] at h
    | bool b => simp [sliceableOpt] at h
    | num i => simp [sliceableOpt] at h
    | obj kvs => simp [sliceableOpt] at h

theorem trimField_already_trimmed (d : List (String × PyVal)) (key : String) (n : Nat)
    (o : Option PyVal) (ho : sliceableOpt o = true)
    (h : lookupKey d key = trimmedOpt n o) : trimField key n (.obj d) = .ok (.obj d) := by
  cases o with
  | none => exact trimField_obj_absent d key n (by simpa [trimmedOpt] using h)
  | some v =>
    cases v with
    | arr l =>
      rw [show trimmedOpt n (some (.arr l)) = some (.arr (l.take n)) from rfl] at h
      rw [trimField_obj_arr d key n (l.take n) h]
      rw [show (l.take n).take n = l.take n by simp]
      rw [setKey_eq_self d key _ h]
    | str s =>
      rw [show trimmedOpt n (some (.str s)) =
        some (.str (String.mk (s.data.take n))) from rfl] at h
      rw [trimField_obj_str d key n _ h]
      have : (String.mk (s.data.take n)).data.take n = (String.mk (s.data.take n)).data := by
        simp
      rw [this]
      rw [setKey_eq_self d key _ h]
    | null => simp [sliceableOpt] at ho
    | bool b => simp [sliceableOpt] at ho
    | num i => simp [sliceableOpt] at ho
    | obj kvs => simp [sliceableOpt] at ho

theorem trimReports_idem (v v' : PyVal) (h : trimReports v = .ok v') :
    trimReports v' = .ok v' := by
  cases v with
  | null => exact absurd h (by simp [show trimReports .null = .error .typeError from rfl])
  | bool b => exact absurd h (by cases b <;>
      simp [show ∀ bb, trimReports (.bool bb) = .error .typeError from fun bb => rfl])
  | num i => exact absurd h (by simp [show trimReports (.num i) = .error .typeError from rfl])
  | str s =>
    by_cases hs : trimSafe (.str s) = true
    · rw [trimReports_str_safe s hs] at h
      obtain rfl : PyVal.str s = v' := by cases h; rfl
      exact trimReports_str_safe s hs
    · rw [trimReports_str_err s (by cases hbb : trimSafe (.str s); rfl; exact absurd hbb hs)]
        at h
      cases h
  | arr xs =>
    by_cases hs : trimSafe (.arr xs) = true
    · rw [trimReports_arr_safe xs hs] at h
      obtain rfl : PyVal.arr xs = v' := by cases h; rfl
      exact trimReports_arr_safe xs hs
    · rw [trimReports_arr_err xs (by cases hbb : trimSafe (.arr xs); rfl; exact absurd hbb hs)]
        at h
      cases h
  | obj d =>
    by_cases ha : sliceableOpt (lookupKey d "annualReports") = true
    · by_cases hq : sliceableOpt (lookupKey d "quarterlyReports") = true
      · obtain ⟨d2, h2, h2a, h2q, _, _, _⟩ := trimReports_obj_ok d ha hq
        rw [h2] at h
        obtain rfl : PyVal.obj d2 = v' := by cases h; rfl
        have hfa : trimField "annualReports" MAX_ANNUAL_REPORTS (.obj d2) = .ok (.obj d2) :=
          trimField_already_trimmed d2 _ _ _ ha h2a
        have hfq : trimField "quarterlyReports" MAX_QUARTERLY_REPORTS (.obj d2) =
            .ok (.obj d2) :=
          trimField_already_trimmed d2 _ _ _ hq h2q
        simp [trimReports, hfa, hfq, exBindOk]
      · rw [trimReports_obj_err d (fun hh => hq hh.2)] at h
        cases h
    · rw [trimReports_obj_err d (fun hh => ha hh.1)] at h
      cases h

/-! ## Whitespace and character lemmas -/

theorem skipWs_spaces (n : Nat) (l : List Char) : skipWs (spaces n ++ l) = skipWs l := by
  induction n with
  | zero => simp [spaces]
  | succ m ih =>
    rw [show spaces (m + 1) = ' ' :: spaces m from by simp [spaces, List.replicate_succ]]
    simpa [skipWs, isWsCh] using ih

theorem skipWs_nl (l : List Char) : skipWs ('\n' :: l) = skipWs l := by
  simp [skipWs, isWsCh]

theorem skipWs_not_ws (c : Char) (l : List Char) (h : isWsCh c = false) :
    skipWs (c :: l) = c :: l := by
  simp [skipWs, h]

theorem charValidNat (c : Char) : c.toNat < 55296 ∨ (57343 < c.toNat ∧ c.toNat < 1114112) :=
  c.valid

/-! ## Hexadecimal lemmas -/

theorem parseHexDigit_hexChar : ∀ d : Fin 16, parseHexDigit (hexChar d.val) = some d.val
  | ⟨0, _⟩ => rfl
  | ⟨1, _⟩ => rfl
  | ⟨2, _⟩ => rfl
  | ⟨3, _⟩ => rfl
  | ⟨4, _⟩ => rfl
  | ⟨5, _⟩ => rfl
  | ⟨6, _⟩ => rfl
  | ⟨7, _⟩ => rfl
  | ⟨8, _⟩ => rfl
  | ⟨9, _⟩ => rfl
  | ⟨10, _⟩ => rfl
  | ⟨11, _⟩ => rfl
  | ⟨12, _⟩ => rfl
  | ⟨13, _⟩ => rfl
  | ⟨14, _⟩ => rfl
  | ⟨15, _⟩ => rfl
  | ⟨_ + 16, h⟩ => absurd h (by omega)

theorem parseHex4_hex4 (n : Nat) (h : n < 65536) (rest : List Char) :
    parseHex4 (hex4 n ++ rest) = some (n, rest) := by
  have h1 := parseHexDigit_hexChar ⟨n / 4096 % 16, Nat.mod_lt _ (by omega)⟩
  have h2 := parseHexDigit_hexChar ⟨n / 256 % 16, Nat.mod_lt _ (by omega)⟩
  have h3 := parseHexDigit_hexChar ⟨n / 16 % 16, Nat.mod_lt _ (by omega)⟩
  have h4 := parseHexDigit_hexChar ⟨n % 16, Nat.mod_lt _ (by omega)⟩
  simp only [hex4, List.cons_append, List.nil_append, parseHex4, h1, h2, h3, h4]
  have : ((n / 4096 % 16 * 16 + n / 256 % 16) * 16 + n / 16 % 16) * 16 + n % 16 = n := by
    omega
  rw [this]

/-! ## Escape-sequence roundtrip -/

theorem parseUEsc_eq (r : List Char) : parseUEsc r =
    (match parseHex4 r with
     | none => .fail
     | some (n, r2) =>
       if n < 55296 ∨ 57343 < n then .ok (Char.ofNat n) r2
       else if 56320 ≤ n then .unmod
       else
         match r2 with
         | '\\' :: 'u' :: r3 =>
           (match parseHex4 r3 with
            | none => .fail
            | some (m, r4) =>
              if 56320 ≤ m ∧ m ≤ 57343 then
                .ok (Char.ofNat (65536 + (n - 55296) * 1024 + (m - 56320))) r4
              else .unmod)
         | _ => .unmod) := rfl

theorem parseEsc_escChar (c : Char) (rest : List Char) :
    (∃ t, escChar c = '\\' :: t ∧ parseEsc (t ++ rest) = .ok c rest) ∨
    (escChar c = [c] ∧ 32 ≤ c.toNat ∧ c.toNat ≤ 126 ∧ c ≠ '"' ∧ c ≠ '\\') := by
  by_cases hq : c = '"'
  · exact Or.inl ⟨['"'], by rw [hq]; rfl, by rw [hq]; rfl⟩
  by_cases hb : c = '\\'
  · exact Or.inl ⟨['\\'], by rw [hb]; rfl, by rw [hb]; rfl⟩
  by_cases hp : 32 ≤ c.toNat ∧ c.toNat ≤ 126
  · exact Or.inr ⟨by simp [escChar, hq, hb, hp], hp.1, hp.2, hq, hb⟩
  by_cases h8 : c = '\x08'
  · exact Or.inl ⟨['b'], by rw [h8]; rfl, by rw [h8]; rfl⟩
  by_cases ht : c = '\t'
  · exact Or.inl ⟨['t'], by rw [ht]; rfl, by rw [ht]; rfl⟩
  by_cases hn : c = '\n'
  · exact Or.inl ⟨['n'], by rw [hn]; rfl, by rw [hn]; rfl⟩
  by_cases hf : c = '\x0c'
  · exact Or.inl ⟨['f'], by rw [hf]; rfl, by rw [hf]; rfl⟩
  by_cases hr : c = '\r'
  · exact Or.inl ⟨['r'], by rw [hr]; rfl, by rw [hr]; rfl⟩
  by_cases hu : c.toNat < 65536
  · have he : escChar c = '\\' :: 'u' :: hex4 c.toNat := by
      unfold escChar
      rw [if_neg hq, if_neg hb, if_neg hp, if_neg h8, if_neg ht, if_neg hn, if_neg hf,
        if_neg hr, if_pos hu]
    refine Or.inl ⟨'u' :: hex4 c.toNat, he, ?_⟩
    have hval := charValidNat c
    rw [show ('u' :: hex4 c.toNat) ++ rest = 'u' :: (hex4 c.toNat ++ rest) from rfl]
    rw [show ∀ cs, parseEsc ('u' :: cs) = parseUEsc cs from fun cs => rfl]
    rw [parseUEsc_eq, parseHex4_hex4 c.toNat hu rest]
    simp only
    rw [if_pos (by omega)]
    rw [Char.ofNat_toNat]
  · have hval := charValidNat c
    have hm : c.toNat - 65536 < 1048576 := by omega
    have hmod := Nat.mod_lt (c.toNat - 65536) (show 0 < 1024 by omega)
    have hhi : 55296 + (c.toNat - 65536) / 1024 < 65536 := by omega
    have hlo : 56320 + (c.toNat - 65536) % 1024 < 65536 := by omega
    have he : escChar c = '\\' :: ('u' :: hex4 (55296 + (c.toNat - 65536) / 1024) ++
        '\\' :: 'u' :: hex4 (56320 + (c.toNat - 65536) % 1024)) := by
      unfold escChar
      rw [if_neg hq, if_neg hb, if_neg hp, if_neg h8, if_neg ht, if_neg hn, if_neg hf,
        if_neg hr, if_neg hu]
      simp
    refine Or.inl ⟨_, he, ?_⟩
    have hassoc : ('u' :: hex4 (55296 + (c.toNat - 65536) / 1024) ++
        '\\' :: 'u' :: hex4 (56320 + (c.toNat - 65536) % 1024)) ++ rest =
        'u' :: (hex4 (55296 + (c.toNat - 65536) / 1024) ++
          ('\\' :: 'u' :: (hex4 (56320 + (c.toNat - 65536) % 1024) ++ rest))) := by
      simp
    rw [hassoc]
    rw [show ∀ cs, parseEsc ('u' :: cs) = parseUEsc cs from fun cs => rfl]
    rw [parseUEsc_eq, parseHex4_hex4 _ hhi]
    simp only
    rw [if_neg (by omega), if_neg (by omega)]
    rw [parseHex4_hex4 _ hlo rest]
    simp only
    rw [if_pos (by omega)]
    have harith : 65536 + (55296 + (c.toNat - 65536) / 1024 - 55296) * 1024 +
        (56320 + (c.toNat - 65536) % 1024 - 56320) = c.toNat := by
      omega
    rw [harith, Char.ofNat_toNat]

/-! ## String-body roundtrip -/

theorem parseStrBody_backslash (f : Nat) (cs : List Char) :
    parseStrBody (f + 1) ('\\' :: cs) =
      (match parseEsc cs with
       | .fail => .fail
       | .unmod => .unmod
       | .ok ch r =>
         match parseStrBody f r with
         | .fail => .fail
         | .unmod => .unmod
         | .ok l rest => .ok (ch :: l) rest) := rfl

theorem parseStrBody_lit (f : Nat) (c : Char) (cs : List Char) (h1 : c ≠ '"')
    (h2 : c ≠ '\\') (h3 : ¬c.toNat < 32) :
    parseStrBody (f + 1) (c :: cs) =
      (match parseStrBody f cs with
       | .fail => .fail
       | .unmod => .unmod
       | .ok l rest => .ok (c :: l) rest) := by
  have hred : parseStrBody (f + 1) (c :: cs) =
      (if c = '"' then .ok [] cs
       else if c = '\\' then
         match parseEsc cs with
         | .fail => .fail
         | .unmod => .unmod
         | .ok ch r =>
           match parseStrBody f r with
           | .fail => .fail
           | .unmod => .unmod
           | .ok l rest => .ok (ch :: l) rest
       else if c.toNat < 32 then .fail
       else
         match parseStrBody f cs with
         | .fail => .fail
         | .unmod => .unmod
         | .ok l rest => .ok (c :: l) rest) := rfl
  rw [hred, if_neg h1, if_neg h2, if_neg h3]

theorem parseStrBody_escBody (l : List Char) : ∀ (f : Nat) (rest : List Char),
    (escBody l).length + 1 ≤ f →
    parseStrBody f (escBody l ++ '"' :: rest) = .ok l rest := by
  induction l with
  | nil =>
    intro f rest hf
    obtain ⟨f', rfl⟩ : ∃ f', f = f' + 1 := ⟨f - 1, by omega⟩
    simp [escBody, parseStrBody]
  | cons c l ih =>
    intro f rest hf
    have hlen : escBody (c :: l) = escChar c ++ escBody l := by
      simp [escBody]
    rw [hlen] at hf ⊢
    rcases parseEsc_escChar c (escBody l ++ '"' :: rest) with ⟨t, htc, hp⟩ | ⟨h1, h2, _, h4, h5⟩
    · rw [htc] at hf ⊢
      obtain ⟨f', rfl⟩ : ∃ f', f = f' + 1 := ⟨f - 1, by omega⟩
      rw [show ('\\' :: t ++ escBody l) ++ '"' :: rest =
        '\\' :: (t ++ (escBody l ++ '"' :: rest)) by simp]
      rw [parseStrBody_backslash, hp]
      simp only
      rw [ih f' rest (by simp at hf; omega)]
    · rw [h1] at hf ⊢
      obtain ⟨f', rfl⟩ : ∃ f', f = f' + 1 := ⟨f - 1, by omega⟩
      rw [show ([c] ++ escBody l) ++ '"' :: rest = c :: (escBody l ++ '"' :: rest) by simp]
      rw [parseStrBody_lit f' c _ h4 h5 (by omega)]
      rw [ih f' rest (by simp at hf; omega)]

/-! ## Number roundtrip -/

theorem digitChar_toNat : ∀ d : Fin 10, (digitChar d.val).toNat = 48 + d.val
  | ⟨0, _⟩ => rfl
  | ⟨1, _⟩ => rfl
  | ⟨2, _⟩ => rfl
  | ⟨3, _⟩ => rfl
  | ⟨4, _⟩ => rfl
  | ⟨5, _⟩ => rfl
  | ⟨6, _⟩ => rfl
  | ⟨7, _⟩ => rfl
  | ⟨8, _⟩ => rfl
  | ⟨9, _⟩ => rfl
  | ⟨_ + 10, h⟩ => absurd h (by omega)

theorem digitChar_toNat_lt (n : Nat) (h : n < 10) : (digitChar n).toNat = 48 + n :=
  digitChar_toNat ⟨n, h⟩

theorem isDigitCh_digitChar (n : Nat) (h : n < 10) : isDigitCh (digitChar n) = true := by
  simp [isDigitCh, digitChar_toNat_lt n h]
  omega

theorem digitChar_ne_zero (n : Nat) (h1 : 1 ≤ n) (h2 : n < 10) : digitChar n ≠ '0' := by
  intro he
  have : (digitChar n).toNat = 48 := by rw [he]; rfl
  rw [digitChar_toNat_lt n h2] at this
  omega

theorem natDigits_all_digits (n : Nat) : ∀ c ∈ natDigits n, isDigitCh c = true := by
  induction n using Nat.strong_induction_on with
  | _ n ih =>
    by_cases h : n < 10
    · rw [natDigits, if_pos h]
      intro c hc
      rw [List.mem_singleton] at hc
      subst hc
      exact isDigitCh_digitChar n h
    · rw [natDigits, if_neg h]
      intro c hc
      rcases List.mem_append.mp hc with hc' | hc'
      · exact ih (n / 10) (Nat.div_lt_self (by omega) (by omega)) c hc'
      · rw [List.mem_singleton] at hc'
        subst hc'
        exact isDigitCh_digitChar _ (Nat.mod_lt _ (by omega))

theorem natDigits_head (n : Nat) (h : 1 ≤ n) :
    ∃ c t, natDigits n = c :: t ∧ isDigitCh c = true ∧ c ≠ '0' := by
  induction n using Nat.strong_induction_on with
  | _ n ih =>
    by_cases h10 : n < 10
    · refine ⟨digitChar n, [], by rw [natDigits, if_pos h10], isDigitCh_digitChar n h10,
        digitChar_ne_zero n h h10⟩
    · obtain ⟨c, t, hct, hd, hz⟩ :=
        ih (n / 10) (Nat.div_lt_self (by omega) (by omega)) (by omega)
      exact ⟨c, t ++ [digitChar (n % 10)], by rw [natDigits, if_neg h10, hct]; rfl, hd, hz⟩

theorem digitsAcc_chain (xs : List Char) : ∀ (acc : Nat) (ys : List Char),
    (∀ c ∈ xs, isDigitCh c = true) →
    digitsAcc acc (xs ++ ys) = digitsAcc (digitsAcc acc xs).1 ys := by
  induction xs with
  | nil => intro acc ys _; simp [digitsAcc]
  | cons c t ih =>
    intro acc ys hall
    have hc : isDigitCh c = true := hall c (by simp)
    rw [List.cons_append, digitsAcc, if_pos hc, digitsAcc, if_pos hc]
    exact ih _ ys (fun c' hc' => hall c' (by simp [hc']))

theorem digitsAcc_stop (acc : Nat) (ys : List Char) (h : noDigitHead ys = true) :
    digitsAcc acc ys = (acc, ys) := by
  cases ys with
  | nil => rfl
  | cons c t =>
    simp only [noDigitHead, Bool.not_eq_true'] at h
    rw [digitsAcc, if_neg (by simp [h])]

theorem digitsAcc_natDigits (n : Nat) : ∀ acc : Nat,
    (digitsAcc acc (natDigits n)).1 = acc * 10 ^ (natDigits n).length + n := by
  induction n using Nat.strong_induction_on with
  | _ n ih =>
    intro acc
    by_cases h : n < 10
    · rw [natDigits, if_pos h]
      have hstep : digitsAcc acc [digitChar n] = (acc * 10 + ((digitChar n).toNat - 48), []) := by
        simp [digitsAcc, isDigitCh_digitChar n h]
      rw [hstep, digitChar_toNat_lt n h]
      simp
      try omega
    · rw [natDigits, if_neg h]
      rw [digitsAcc_chain _ acc _ (natDigits_all_digits (n / 10))]
      rw [ih (n / 10) (Nat.div_lt_self (by omega) (by omega)) acc]
      have hstep : digitsAcc (acc * 10 ^ (natDigits (n / 10)).length + n / 10)
          [digitChar (n % 10)] =
          ((acc * 10 ^ (natDigits (n / 10)).length + n / 10) * 10 +
            ((digitChar (n % 10)).toNat - 48), []) := by
        simp [digitsAcc, isDigitCh_digitChar _ (Nat.mod_lt n (by omega))]
      rw [hstep, digitChar_toNat_lt _ (Nat.mod_lt _ (by omega))]
      simp only [List.length_append, List.length_cons, List.length_nil]
      generalize (natDigits (n / 10)).length = L
      rw [show L + (0 + 1) = L + 1 by omega, pow_succ]
      have hmod := Nat.mod_lt n (show 0 < 10 by omega)
      have hdm : 10 * (n / 10) + n % 10 = n := Nat.div_add_mod n 10
      generalize hP : (10 : Nat) ^ L = P
      have heq : (acc * P + n / 10) * 10 + (48 + n % 10 - 48) =
          acc * (P * 10) + (10 * (n / 10) + n % 10) := by ring_nf; omega
      rw [heq, hdm]

theorem numGuard_cons (c : Char) (cs : List Char) (h : numGuard (c :: cs) = true) :
    isDigitCh c = false ∧ c ≠ '.' ∧ c ≠ 'e' ∧ c ≠ 'E' := by
  simp only [numGuard, Bool.not_eq_true', Bool.or_eq_false_iff,
    decide_eq_false_iff_not] at h
  exact ⟨h.1.1.1, h.1.1.2, h.1.2, h.2⟩

theorem checkFloatSuffix_guard (n : Nat) (rest : List Char) (h : numGuard rest = true) :
    checkFloatSuffix n rest = .ok n rest := by
  cases rest with
  | nil => rfl
  | cons c cs =>
    obtain ⟨h1, h2, h3, h4⟩ := numGuard_cons c cs h
    simp [checkFloatSuffix, h2, h3, h4]

theorem parseNumTail_natDigits (n : Nat) (rest : List Char) (hg : numGuard rest = true) :
    parseNumTail (natDigits n ++ rest) = .ok n rest := by
  have hnd : noDigitHead rest = true := by
    cases rest with
    | nil => rfl
    | cons c cs =>
      simp only [numGuard, Bool.not_eq_true', Bool.or_eq_false_iff] at hg
      simp [noDigitHead, hg.1.1.1]
  by_cases h0 : n = 0
  · subst h0
    rw [show natDigits 0 = ['0'] from by rw [natDigits]; rfl]
    rw [show ('0' :: []) ++ rest = '0' :: rest from rfl]
    rw [parseNumTail, if_pos rfl]
    exact checkFloatSuffix_guard 0 rest hg
  · obtain ⟨c, t, hct, hd, hz⟩ := natDigits_head n (by omega)
    rw [hct, List.cons_append, parseNumTail, if_neg hz, if_pos hd]
    have hchain : digitsAcc (c.toNat - 48) (t ++ rest) =
        (( digitsAcc (c.toNat - 48) t).1, rest) := by
      rw [digitsAcc_chain t _ rest (fun c' hc' => natDigits_all_digits n c'
        (by rw [hct]; exact List.mem_cons_of_mem _ hc'))]
      exact digitsAcc_stop _ rest hnd
    rw [hchain]
    have hval : (digitsAcc (c.toNat - 48) t).1 = n := by
      have h1 := digitsAcc_natDigits n 0
      rw [hct] at h1
      rw [digitsAcc, if_pos hd] at h1
      simpa using h1
    rw [hval]
    exact checkFloatSuffix_guard n rest hg

/-! ## Shape lemmas used by the main parsing theorem -/

theorem stringMk_data (s : String) : String.mk s.data = s := rfl

theorem skipWs_ws_front (pre : List Char) (l : List Char)
    (h : ∀ c ∈ pre, isWsCh c = true) : skipWs (pre ++ l) = skipWs l := by
  induction pre with
  | nil => simp
  | cons c t ih =>
    rw [List.cons_append, skipWs, if_pos (h c (by simp))]
    exact ih fun c' hc' => h c' (by simp [hc'])

theorem ws_spaces (n : Nat) : ∀ c ∈ spaces n, isWsCh c = true := by
  intro c hc
  have hsp : c = ' ' := List.eq_of_mem_replicate (by simpa [spaces] using hc)
  rw [hsp]
  rfl

theorem chStarts_self (p : List Char) (l : List Char) : chStarts p (p ++ l) = true := by
  induction p with
  | nil => rfl
  | cons c t ih => simp [chStarts, ih]

theorem pvFuel_pos (v : PyVal) : 1 ≤ pvFuel v := by
  cases v <;> simp [pvFuel]

theorem ne_of_toNat_ne (c d : Char) (m : Nat) (hd : d.toNat = m) (h : c.toNat ≠ m) :
    c ≠ d := fun he => h (by rw [he, hd])

theorem digit_head_props (c : Char) (h : isDigitCh c = true) :
    isWsCh c = false ∧ c ≠ ']' ∧ c ≠ '\x7d' ∧ c ≠ '\x7b' ∧ c ≠ '[' ∧ c ≠ '"' ∧
      c ≠ 't' ∧ c ≠ 'f' ∧ c ≠ 'n' ∧ c ≠ 'N' ∧ c ≠ 'I' ∧ c ≠ '-' := by
  simp only [isDigitCh, Bool.and_eq_true, decide_eq_true_eq] at h
  refine ⟨?_, ne_of_toNat_ne c _ 93 rfl (by omega), ne_of_toNat_ne c _ 125 rfl (by omega),
    ne_of_toNat_ne c _ 123 rfl (by omega), ne_of_toNat_ne c _ 91 rfl (by omega),
    ne_of_toNat_ne c _ 34 rfl (by omega), ne_of_toNat_ne c _ 116 rfl (by omega),
    ne_of_toNat_ne c _ 102 rfl (by omega), ne_of_toNat_ne c _ 110 rfl (by omega),
    ne_of_toNat_ne c _ 78 rfl (by omega), ne_of_toNat_ne c _ 73 rfl (by omega),
    ne_of_toNat_ne c _ 45 rfl (by omega)⟩
  simp only [isWsCh, Bool.or_eq_false_iff, decide_eq_false_iff_not]
  exact ⟨⟨⟨ne_of_toNat_ne c _ 32 rfl (by omega), ne_of_toNat_ne c _ 9 rfl (by omega)⟩,
    ne_of_toNat_ne c _ 10 rfl (by omega)⟩, ne_of_toNat_ne c _ 13 rfl (by omega)⟩

theorem natDigits_cons (n : Nat) : ∃ c t, natDigits n = c :: t ∧ isDigitCh c = true := by
  by_cases h : n = 0
  · exact ⟨'0', [], by rw [h, natDigits]; rfl, rfl⟩
  · obtain ⟨c, t, hct, hd, _⟩ := natDigits_head n (by omega)
    exact ⟨c, t, hct, hd⟩

theorem dumpVal_head (ind : Nat) (v : PyVal) :
    ∃ c t, dumpVal ind v = c :: t ∧ isWsCh c = false ∧ c ≠ ']' ∧ c ≠ '\x7d' := by
  cases v with
  | null => exact ⟨'n', _, rfl, rfl, by decide, by decide⟩
  | bool b =>
    cases b with
    | true => exact ⟨'t', _, rfl, rfl, by decide, by decide⟩
    | false => exact ⟨'f', _, rfl, rfl, by decide, by decide⟩
  | num i =>
    by_cases hi : i < 0
    · refine ⟨'-', natDigits i.natAbs, ?_, rfl, by decide, by decide⟩
      simp only [dumpVal, intChars, if_pos hi]
    · obtain ⟨c, t, hct, hd⟩ := natDigits_cons i.natAbs
      obtain ⟨hw, h1, h2, _⟩ := digit_head_props c hd
      refine ⟨c, t, ?_, hw, h1, h2⟩
      simp only [dumpVal, intChars, if_neg hi, hct]
  | str s => exact ⟨'"', _, rfl, rfl, by decide, by decide⟩
  | arr xs =>
    cases xs with
    | nil => exact ⟨'[', _, rfl, rfl, by decide, by decide⟩
    | cons x t => exact ⟨'[', _, rfl, rfl, by decide, by decide⟩
  | obj kvs =>
    cases kvs with
    | nil => exact ⟨'\x7b', _, rfl, rfl, by decide, by decide⟩
    | cons kv t =>
      obtain ⟨k, w⟩ := kv
      exact ⟨'\x7b', _, rfl, rfl, by decide, by decide⟩

/-! ## Unfolding equations for the fueled parser -/

theorem chStarts_head_ne (a : Char) (as : List Char) (b : Char) (bs : List Char)
    (h : a ≠ b) : chStarts (a :: as) (b :: bs) = false := by
  simp [chStarts, h]

theorem parseVal_cons (f : Nat) (cs0 : List Char) (c : Char) (r : List Char)
    (h : skipWs cs0 = c :: r) :
    parseVal (f + 1) cs0 =
      (if c = '\x7b' then
        match skipWs r with
        | [] => .fail
        | c1 :: r1 =>
          if c1 = '\x7d' then .ok (.obj []) r1
          else parseMembers f [] (c1 :: r1)
      else if c = '[' then
        match skipWs r with
        | [] => .fail
        | c1 :: r1 =>
          if c1 = ']' then .ok (.arr []) r1
          else parseItems f [] (c1 :: r1)
      else if c = '"' then
        match parseStrBody r.length r with
        | .fail => .fail
        | .unmod => .unmod
        | .ok l rest => .ok (.str (String.mk l)) rest
      else if chStarts "true".data (c :: r) then .ok (.bool true) ((c :: r).drop 4)
      else if chStarts "false".data (c :: r) then .ok (.bool false) ((c :: r).drop 5)
      else if chStarts "null".data (c :: r) then .ok .null ((c :: r).drop 4)
      else if chStarts "NaN".data (c :: r) then .unmod
      else if chStarts "Infinity".data (c :: r) then .unmod
      else if c = '-' then
        if chStarts "Infinity".data r then .unmod
        else
          match parseNumTail r with
          | .fail => .fail
          | .unmod => .unmod
          | .ok n rest => .ok (.num (-(n : Int))) rest
      else
        match parseNumTail (c :: r) with
        | .fail => .fail
        | .unmod => .unmod
        | .ok n rest => .ok (.num (n : Int)) rest) := by
  rw [show parseVal (f + 1) cs0 =
    (match skipWs cs0 with
     | [] => .fail
     | c :: r =>
       if c = '\x7b' then
         match skipWs r with
         | [] => .fail
         | c1 :: r1 =>
           if c1 = '\x7d' then .ok (.obj []) r1
           else parseMembers f [] (c1 :: r1)
       else if c = '[' then
         match skipWs r with
         | [] => .fail
         | c1 :: r1 =>
           if c1 = ']' then .ok (.arr []) r1
           else parseItems f [] (c1 :: r1)
       else if c = '"' then
         match parseStrBody r.length r with
         | .fail => .fail
         | .unmod => .unmod
         | .ok l rest => .ok (.str (String.mk l)) rest
       else if chStarts "true".data (c :: r) then .ok (.bool true) ((c :: r).drop 4)
       else if chStarts "false".data (c :: r) then .ok (.bool false) ((c :: r).drop 5)
       else if chStarts "null".data (c :: r) then .ok .null ((c :: r).drop 4)
       else if chStarts "NaN".data (c :: r) then .unmod
       else if chStarts "Infinity".data (c :: r) then .unmod
       else if c = '-' then
         if chStarts "Infinity".data r then .unmod
         else
           match parseNumTail r with
           | .fail => .fail
           | .unmod => .unmod
           | .ok n rest => .ok (.num (-(n : Int))) rest
       else
         match parseNumTail (c :: r) with
         | .fail => .fail
         | .unmod => .unmod
         | .ok n rest => .ok (.num (n : Int)) rest) from rfl, h]

theorem parseItems_succ (f : Nat) (acc : List PyVal) (cs : List Char) :
    parseItems (f + 1) acc cs =
      (match parseVal f cs with
       | .fail => .fail
       | .unmod => .unmod
       | .ok v rest =>
         match skipWs rest with
         | [] => .fail
         | c2 :: r2 =>
           if c2 = ',' then parseItems f (acc ++ [v]) r2
           else if c2 = ']' then .ok (.arr (acc ++ [v])) r2
           else .fail) := rfl

theorem parseMembers_cons (f : Nat) (acc : List (String × PyVal)) (cs : List Char)
    (c : Char) (r : List Char) (h : skipWs cs = c :: r) :
    parseMembers (f + 1) acc cs =
      (if c = '"' then
        match parseStrBody r.length r with
        | .fail => .fail
        | .unmod => .unmod
        | .ok kl rest =>
          match skipWs rest with
          | [] => .fail
          | c2 :: r2 =>
            if c2 = ':' then
              match parseVal f r2 with
              | .fail => .fail
              | .unmod => .unmod
              | .ok v r3 =>
                match skipWs r3 with
                | [] => .fail
                | c3 :: r4 =>
                  if c3 = ',' then parseMembers f (setKey acc (String.mk kl) v) r4
                  else if c3 = '\x7d' then .ok (.obj (setKey acc (String.mk kl) v)) r4
                  else .fail
            else .fail
      else .fail) := by
  rw [show parseMembers (f + 1) acc cs =
    (match skipWs cs with
     | [] => .fail
     | c :: r =>
       if c = '"' then
         match parseStrBody r.length r with
         | .fail => .fail
         | .unmod => .unmod
         | .ok kl rest =>
           match skipWs rest with
           | [] => .fail
           | c2 :: r2 =>
             if c2 = ':' then
               match parseVal f r2 with
               | .fail => .fail
               | .unmod => .unmod
               | .ok v r3 =>
                 match skipWs r3 with
                 | [] => .fail
                 | c3 :: r4 =>
                   if c3 = ',' then parseMembers f (setKey acc (String.mk kl) v) r4
                   else if c3 = '\x7d' then .ok (.obj (setKey acc (String.mk kl) v)) r4
                   else .fail
             else .fail
       else .fail) from rfl, h]

/-! ## The main parsing theorem: the parser reads a serialized value back -/

theorem parse_dump_master : ∀ f : Nat,
    (∀ v ind rest pre, WfVal v → pvFuel v ≤ f → numGuard rest = true →
      (∀ c ∈ pre, isWsCh c = true) →
      parseVal f (pre ++ (dumpVal ind v ++ rest)) = .ok v rest) ∧
    (∀ (x : PyVal) (xs : List PyVal) acc ic ib rest pre, (∀ w ∈ x :: xs, WfVal w) →
      pvFuelItems (x :: xs) ≤ f → (∀ c ∈ pre, isWsCh c = true) →
      parseItems f acc
        (pre ++ (dumpVal ic x ++ (tailItems ic xs ++ '\n' :: (spaces ib ++ ']' :: rest)))) =
        .ok (.arr (acc ++ x :: xs)) rest) ∧
    (∀ (k : String) (w : PyVal) kvs acc ic ib rest pre,
      (∀ kv ∈ (k, w) :: kvs, WfVal kv.2) →
      ((acc ++ (k, w) :: kvs).map Prod.fst).Nodup →
      pvFuelFields ((k, w) :: kvs) ≤ f → (∀ c ∈ pre, isWsCh c = true) →
      parseMembers f acc (pre ++ (quoteStr k.data ++ ':' :: ' ' ::
        (dumpVal ic w ++ (tailFields ic kvs ++ '\n' :: (spaces ib ++ '\x7d' :: rest))))) =
        .ok (.obj (acc ++ (k, w) :: kvs)) rest) := by
  intro f
  induction f with
  | zero =>
    refine ⟨fun v _ _ _ _ hfuel _ _ => absurd hfuel (by have := pvFuel_pos v; omega),
      fun x xs _ _ _ _ _ _ hfuel _ => absurd hfuel ?_,
      fun k w kvs _ _ _ _ _ _ _ hfuel _ => absurd hfuel ?_⟩
    · simp only [pvFuelItems]
      have := pvFuel_pos x
      omega
    · simp only [pvFuelFields]
      have := pvFuel_pos w
      omega
  | succ f ih =>
    obtain ⟨ihP, ihQ, ihR⟩ := ih
    refine ⟨?_, ?_, ?_⟩
    · -- parseVal on a dumped value
      intro v ind rest pre hwf hfuel hg hpre
      cases v with
      | null =>
        have hd : dumpVal ind PyVal.null = ['n', 'u', 'l', 'l'] := by simp [dumpVal, nullChars]
        rw [hd]
        have hskip : skipWs (pre ++ (['n', 'u', 'l', 'l'] ++ rest)) =
            'n' :: ('u' :: 'l' :: 'l' :: rest) := by
          rw [skipWs_ws_front pre _ hpre]
          rfl
        rw [parseVal_cons f _ _ _ hskip]
        rfl
      | bool b =>
        cases b with
        | true =>
          have hd : dumpVal ind (PyVal.bool true) = ['t', 'r', 'u', 'e'] := by
            simp [dumpVal, trueChars]
          rw [hd]
          have hskip : skipWs (pre ++ (['t', 'r', 'u', 'e'] ++ rest)) =
              't' :: ('r' :: 'u' :: 'e' :: rest) := by
            rw [skipWs_ws_front pre _ hpre]
            rfl
          rw [parseVal_cons f _ _ _ hskip]
          rfl
        | false =>
          have hd : dumpVal ind (PyVal.bool false) = ['f', 'a', 'l', 's', 'e'] := by
            simp [dumpVal, falseChars]
          rw [hd]
          have hskip : skipWs (pre ++ (['f', 'a', 'l', 's', 'e'] ++ rest)) =
              'f' :: ('a' :: 'l' :: 's' :: 'e' :: rest) := by
            rw [skipWs_ws_front pre _ hpre]
            rfl
          rw [parseVal_cons f _ _ _ hskip]
          rfl
      | num i =>
        obtain ⟨c1, t1, hct, hdg⟩ := natDigits_cons i.natAbs
        obtain ⟨hw1, hne1, hne2, hne3, hne4, hne5, hne6, hne7, hne8, hne9, hne10, hne11⟩ :=
          digit_head_props c1 hdg
        have hkwt : chStarts "true".data (c1 :: (t1 ++ rest)) = false := by
          rw [show ("true".data : List Char) = 't' :: ['r', 'u', 'e'] from rfl]
          exact chStarts_head_ne _ _ _ _ (Ne.symm hne6)
        have hkwf : chStarts "false".data (c1 :: (t1 ++ rest)) = false := by
          rw [show ("false".data : List Char) = 'f' :: ['a', 'l', 's', 'e'] from rfl]
          exact chStarts_head_ne _ _ _ _ (Ne.symm hne7)
        have hkwn : chStarts "null".data (c1 :: (t1 ++ rest)) = false := by
          rw [show ("null".data : List Char) = 'n' :: ['u', 'l', 'l'] from rfl]
          exact chStarts_head_ne _ _ _ _ (Ne.symm hne8)
        have hkwN : chStarts "NaN".data (c1 :: (t1 ++ rest)) = false := by
          rw [show ("NaN".data : List Char) = 'N' :: ['a', 'N'] from rfl]
          exact chStarts_head_ne _ _ _ _ (Ne.symm hne9)
        have hkwI : chStarts "Infinity".data (c1 :: (t1 ++ rest)) = false := by
          rw [show ("Infinity".data : List Char) =
            'I' :: ['n', 'f', 'i', 'n', 'i', 't', 'y'] from rfl]
          exact chStarts_head_ne _ _ _ _ (Ne.symm hne10)
        have hback : c1 :: (t1 ++ rest) = natDigits i.natAbs ++ rest := by
          rw [hct]
          rfl
        by_cases hi : i < 0
        · have hd : dumpVal ind (PyVal.num i) = '-' :: natDigits i.natAbs := by
            simp [dumpVal, intChars, if_pos hi]
          rw [hd]
          have hskip : skipWs (pre ++ (('-' :: natDigits i.natAbs) ++ rest)) =
              '-' :: (natDigits i.natAbs ++ rest) := by
            rw [skipWs_ws_front pre _ hpre]
            rfl
          rw [parseVal_cons f _ _ _ hskip]
          rw [if_neg (by decide : ¬('-' : Char) = '\x7b'),
            if_neg (by decide : ¬('-' : Char) = '['),
            if_neg (by decide : ¬('-' : Char) = '"')]
          rw [show ∀ X, chStarts "true".data ('-' :: X) = false from fun X => by
            rw [show ("true".data : List Char) = 't' :: ['r', 'u', 'e'] from rfl]
            exact chStarts_head_ne _ _ _ _ (by decide)]
          rw [show ∀ X, chStarts "false".data ('-' :: X) = false from fun X => by
            rw [show ("false".data : List Char) = 'f' :: ['a', 'l', 's', 'e'] from rfl]
            exact chStarts_head_ne _ _ _ _ (by decide)]
          rw [show ∀ X, chStarts "null".data ('-' :: X) = false from fun X => by
            rw [show ("null".data : List Char) = 'n' :: ['u', 'l', 'l'] from rfl]
            exact chStarts_head_ne _ _ _ _ (by decide)]
          rw [show ∀ X, chStarts "NaN".data ('-' :: X) = false from fun X => by
            rw [show ("NaN".data : List Char) = 'N' :: ['a', 'N'] from rfl]
            exact chStarts_head_ne _ _ _ _ (by decide)]
          rw [show ∀ X, chStarts "Infinity".data ('-' :: X) = false from fun X => by
            rw [show ("Infinity".data : List Char) =
              'I' :: ['n', 'f', 'i', 'n', 'i', 't', 'y'] from rfl]
            exact chStarts_head_ne _ _ _ _ (by decide)]
          simp only [Bool.false_eq_true, if_false, if_pos rfl]
          rw [show natDigits i.natAbs ++ rest = c1 :: (t1 ++ rest) from hback.symm]
          rw [hkwI]
          simp only [Bool.false_eq_true, if_false]
          rw [hback, parseNumTail_natDigits i.natAbs rest hg]
          have hcast : -((i.natAbs : Int)) = i := by omega
          dsimp only
          rw [hcast, if_pos trivial]
        · have hd : dumpVal ind (PyVal.num i) = natDigits i.natAbs := by
            simp [dumpVal, intChars, if_neg hi]
          rw [hd]
          have hskip : skipWs (pre ++ (natDigits i.natAbs ++ rest)) =
              c1 :: (t1 ++ rest) := by
            rw [skipWs_ws_front pre _ hpre, hct, List.cons_append,
              skipWs_not_ws _ _ hw1]
          rw [parseVal_cons f _ _ _ hskip]
          rw [if_neg hne3, if_neg hne4, if_neg hne5]
          rw [hkwt, hkwf, hkwn, hkwN, hkwI]
          simp only [Bool.false_eq_true, if_false]
          rw [if_neg hne11]
          rw [hback, parseNumTail_natDigits i.natAbs rest hg]
          have hcast : ((i.natAbs : Int)) = i := by omega
          dsimp only
          rw [hcast]
      | str s =>
        have hd : dumpVal ind (PyVal.str s) = '"' :: (escBody s.data ++ ['"']) := by
          simp [dumpVal, quoteStr]
        rw [hd]
        have hskip : skipWs (pre ++ (('"' :: (escBody s.data ++ ['"'])) ++ rest)) =
            '"' :: ((escBody s.data ++ ['"']) ++ rest) := by
          rw [skipWs_ws_front pre _ hpre]
          rfl
        rw [parseVal_cons f _ _ _ hskip]
        have hr : (escBody s.data ++ ['"']) ++ rest = escBody s.data ++ '"' :: rest := by
          simp
        rw [hr]
        rw [parseStrBody_escBody s.data _ rest (by simp)]
        rfl
      | arr xs =>
        cases xs with
        | nil =>
          have hd : dumpVal ind (PyVal.arr []) = ['[', ']'] := by simp [dumpVal]
          rw [hd]
          have hskip : skipWs (pre ++ (['[', ']'] ++ rest)) = '[' :: (']' :: rest) := by
            rw [skipWs_ws_front pre _ hpre]
            rfl
          rw [parseVal_cons f _ _ _ hskip]
          rfl
        | cons x xs =>
          have hd : dumpVal ind (PyVal.arr (x :: xs)) =
              '[' :: '\n' :: (spaces (ind + 2) ++ dumpVal (ind + 2) x ++
                tailItems (ind + 2) xs ++ '\n' :: (spaces ind ++ [']'])) := by
            simp [dumpVal]
          rw [hd]
          obtain ⟨cx, tx, hdx, hwx, hnex, _⟩ := dumpVal_head (ind + 2) x
          have hskip : skipWs (pre ++ (('[' :: '\n' :: (spaces (ind + 2) ++
              dumpVal (ind + 2) x ++ tailItems (ind + 2) xs ++
              '\n' :: (spaces ind ++ [']']))) ++ rest)) =
              '[' :: (('\n' :: (spaces (ind + 2) ++ dumpVal (ind + 2) x ++
                tailItems (ind + 2) xs ++ '\n' :: (spaces ind ++ [']']))) ++ rest) := by
            rw [skipWs_ws_front pre _ hpre]
            rfl
          rw [parseVal_cons f _ _ _ hskip]
          rw [if_neg (by decide : ¬('[' : Char) = '\x7b'), if_pos rfl]
          have hsk2 : skipWs (('\n' :: (spaces (ind + 2) ++ dumpVal (ind + 2) x ++
              tailItems (ind + 2) xs ++ '\n' :: (spaces ind ++ [']']))) ++ rest) =
              cx :: (tx ++ (tailItems (ind + 2) xs ++
                '\n' :: (spaces ind ++ ']' :: rest))) := by
            rw [List.cons_append, skipWs_nl]
            rw [show (spaces (ind + 2) ++ dumpVal (ind + 2) x ++ tailItems (ind + 2) xs ++
              '\n' :: (spaces ind ++ [']'])) ++ rest =
              spaces (ind + 2) ++ (dumpVal (ind + 2) x ++ (tailItems (ind + 2) xs ++
                '\n' :: (spaces ind ++ ']' :: rest))) from by simp]
            rw [skipWs_ws_front _ _ (ws_spaces (ind + 2)), hdx, List.cons_append,
              skipWs_not_ws _ _ hwx]
          rw [hsk2]
          dsimp only
          rw [if_neg hnex]
          rw [show cx :: (tx ++ (tailItems (ind + 2) xs ++
            '\n' :: (spaces ind ++ ']' :: rest))) =
            dumpVal (ind + 2) x ++ (tailItems (ind + 2) xs ++
              '\n' :: (spaces ind ++ ']' :: rest)) from by rw [hdx]; rfl]
          have helems : ∀ w ∈ x :: xs, WfVal w := by
            cases hwf with
            | arr _ h => exact h
          have hfu : pvFuelItems (x :: xs) ≤ f := by
            simp only [pvFuel] at hfuel
            omega
          exact ihQ x xs [] (ind + 2) ind rest [] helems hfu (by simp)
      | obj kvs =>
        cases kvs with
        | nil =>
          have hd : dumpVal ind (PyVal.obj []) = ['\x7b', '\x7d'] := by simp [dumpVal]
          rw [hd]
          have hskip : skipWs (pre ++ (['\x7b', '\x7d'] ++ rest)) =
              '\x7b' :: ('\x7d' :: rest) := by
            rw [skipWs_ws_front pre _ hpre]
            rfl
          rw [parseVal_cons f _ _ _ hskip]
          rfl
        | cons kv kvs =>
          obtain ⟨k, w⟩ := kv
          have hd : dumpVal ind (PyVal.obj ((k, w) :: kvs)) =
              '\x7b' :: '\n' :: (spaces (ind + 2) ++ quoteStr k.data ++ ':' :: ' ' ::
                (dumpVal (ind + 2) w ++ tailFields (ind + 2) kvs ++
                  '\n' :: (spaces ind ++ ['\x7d']))) := by
            simp [dumpVal]
          rw [hd]
          have hskip : skipWs (pre ++ (('\x7b' :: '\n' :: (spaces (ind + 2) ++
              quoteStr k.data ++ ':' :: ' ' :: (dumpVal (ind + 2) w ++
                tailFields (ind + 2) kvs ++ '\n' :: (spaces ind ++ ['\x7d'])))) ++ rest)) =
              '\x7b' :: (('\n' :: (spaces (ind + 2) ++ quoteStr k.data ++ ':' :: ' ' ::
                (dumpVal (ind + 2) w ++ tailFields (ind + 2) kvs ++
                  '\n' :: (spaces ind ++ ['\x7d'])))) ++ rest) := by
            rw [skipWs_ws_front pre _ hpre]
            rfl
          rw [parseVal_cons f _ _ _ hskip]
          rw [if_pos rfl]
          have hsk2 : skipWs (('\n' :: (spaces (ind + 2) ++ quoteStr k.data ++ ':' :: ' ' ::
              (dumpVal (ind + 2) w ++ tailFields (ind + 2) kvs ++
                '\n' :: (spaces ind ++ ['\x7d'])))) ++ rest) =
              '"' :: ((escBody k.data ++ ['"']) ++ ':' :: ' ' ::
                (dumpVal (ind + 2) w ++ (tailFields (ind + 2) kvs ++
                  '\n' :: (spaces ind ++ '\x7d' :: rest)))) := by
            rw [List.cons_append, skipWs_nl]
            rw [show (spaces (ind + 2) ++ quoteStr k.data ++ ':' :: ' ' ::
              (dumpVal (ind + 2) w ++ tailFields (ind + 2) kvs ++
                '\n' :: (spaces ind ++ ['\x7d']))) ++ rest =
              spaces (ind + 2) ++ ('"' :: ((escBody k.data ++ ['"']) ++ ':' :: ' ' ::
                (dumpVal (ind + 2) w ++ (tailFields (ind + 2) kvs ++
                  '\n' :: (spaces ind ++ '\x7d' :: rest))))) from by
              simp [quoteStr]]
            rw [skipWs_ws_front _ _ (ws_spaces (ind + 2))]
            rfl
          rw [hsk2]
          dsimp only
          rw [if_neg (by decide : ¬('"' : Char) = '\x7d')]
          have hfields : ∀ kv ∈ (k, w) :: kvs, WfVal kv.2 := by
            cases hwf with
            | obj _ h _ => exact h
          have hnodup : (((k, w) :: kvs).map Prod.fst).Nodup := by
            cases hwf with
            | obj _ _ h => exact h
          have hfu : pvFuelFields ((k, w) :: kvs) ≤ f := by
            simp only [pvFuel] at hfuel
            omega
          have := ihR k w kvs [] (ind + 2) ind rest []
            hfields (by simpa using hnodup) hfu (by simp)
          rw [show '"' :: ((escBody k.data ++ ['"']) ++ ':' :: ' ' ::
            (dumpVal (ind + 2) w ++ (tailFields (ind + 2) kvs ++
              '\n' :: (spaces ind ++ '\x7d' :: rest)))) =
            [] ++ (quoteStr k.data ++ ':' :: ' ' ::
              (dumpVal (ind + 2) w ++ (tailFields (ind + 2) kvs ++
                '\n' :: (spaces ind ++ '\x7d' :: rest)))) from by simp [quoteStr]]
          exact this
    · -- parseItems on dumped items
      intro x xs acc ic ib rest pre hwf hfuel hpre
      have hfx : pvFuel x ≤ f := by
        simp only [pvFuelItems] at hfuel
        omega
      cases xs with
      | nil =>
        rw [show tailItems ic ([] : List PyVal) = [] from by simp [tailItems]]
        rw [parseItems_succ]
        rw [List.nil_append]
        rw [ihP x ic ('\n' :: (spaces ib ++ ']' :: rest)) pre (hwf x (by simp)) hfx
          (by rfl) hpre]
        dsimp only
        have hsk : skipWs ('\n' :: (spaces ib ++ ']' :: rest)) = ']' :: rest := by
          rw [skipWs_nl, skipWs_ws_front _ _ (ws_spaces ib)]
          rfl
        rw [hsk]
        dsimp only
        rfl
      | cons y ys =>
        rw [show tailItems ic (y :: ys) =
          ',' :: '\n' :: (spaces ic ++ dumpVal ic y ++ tailItems ic ys) from by
          simp [tailItems]]
        rw [parseItems_succ]
        rw [ihP x ic ((',' :: '\n' :: (spaces ic ++ dumpVal ic y ++ tailItems ic ys)) ++
          '\n' :: (spaces ib ++ ']' :: rest)) pre (hwf x (by simp)) hfx (by rfl) hpre]
        dsimp only
        have hsk : skipWs ((',' :: '\n' :: (spaces ic ++ dumpVal ic y ++
            tailItems ic ys)) ++ '\n' :: (spaces ib ++ ']' :: rest)) =
            ',' :: (('\n' :: (spaces ic ++ dumpVal ic y ++ tailItems ic ys)) ++
              '\n' :: (spaces ib ++ ']' :: rest)) := by
          rfl
        rw [hsk]
        dsimp only
        rw [if_pos rfl]
        rw [show ('\n' :: (spaces ic ++ dumpVal ic y ++ tailItems ic ys)) ++
          '\n' :: (spaces ib ++ ']' :: rest) =
          ('\n' :: spaces ic) ++ (dumpVal ic y ++ (tailItems ic ys ++
            '\n' :: (spaces ib ++ ']' :: rest))) from by simp]
        have hws : ∀ c ∈ '\n' :: spaces ic, isWsCh c = true := by
          intro c hc
          rcases List.mem_cons.mp hc with h | h
          · rw [h]
            rfl
          · exact ws_spaces ic c h
        have hfu : pvFuelItems (y :: ys) ≤ f := by
          simp only [pvFuelItems] at hfuel ⊢
          have := pvFuel_pos x
          omega
        have := ihQ y ys (acc ++ [x]) ic ib rest ('\n' :: spaces ic)
          (fun v hv => hwf v (List.mem_cons_of_mem _ hv)) hfu hws
        rw [this]
        try simp
    · -- parseMembers on dumped fields
      intro k w kvs acc ic ib rest pre hfields hnodup hfuel hpre
      have hfw : pvFuel w ≤ f := by
        simp only [pvFuelFields] at hfuel
        omega
      have hskip : skipWs (pre ++ (quoteStr k.data ++ ':' :: ' ' ::
          (dumpVal ic w ++ (tailFields ic kvs ++ '\n' :: (spaces ib ++ '\x7d' :: rest))))) =
          '"' :: ((escBody k.data ++ ['"']) ++ ':' :: ' ' ::
            (dumpVal ic w ++ (tailFields ic kvs ++ '\n' :: (spaces ib ++ '\x7d' :: rest)))) := by
        rw [skipWs_ws_front pre _ hpre]
        rfl
      rw [parseMembers_cons f acc _ _ _ hskip]
      rw [if_pos rfl]
      rw [show (escBody k.data ++ ['"']) ++ ':' :: ' ' ::
        (dumpVal ic w ++ (tailFields ic kvs ++ '\n' :: (spaces ib ++ '\x7d' :: rest))) =
        escBody k.data ++ '"' :: (':' :: ' ' ::
          (dumpVal ic w ++ (tailFields ic kvs ++ '\n' :: (spaces ib ++ '\x7d' :: rest))))
        from by simp]
      rw [parseStrBody_escBody k.data _ _ (by simp)]
      dsimp only
      have hsk2 : skipWs (':' :: ' ' ::
          (dumpVal ic w ++ (tailFields ic kvs ++ '\n' :: (spaces ib ++ '\x7d' :: rest)))) =
          ':' :: (' ' ::
            (dumpVal ic w ++ (tailFields ic kvs ++ '\n' :: (spaces ib ++ '\x7d' :: rest)))) := by
        rfl
      rw [hsk2]
      dsimp only
      rw [if_pos rfl]
      have hgu : numGuard (tailFields ic kvs ++ '\n' :: (spaces ib ++ '\x7d' :: rest)) =
          true := by
        cases kvs with
        | nil => rfl
        | cons kv t =>
          obtain ⟨k2, w2⟩ := kv
          rw [show tailFields ic ((k2, w2) :: t) =
            ',' :: '\n' :: (spaces ic ++ quoteStr k2.data ++ ':' :: ' ' ::
              (dumpVal ic w2 ++ tailFields ic t)) from by simp [tailFields]]
          rfl
      rw [show ' ' :: (dumpVal ic w ++ (tailFields ic kvs ++
        '\n' :: (spaces ib ++ '\x7d' :: rest))) =
        [' '] ++ (dumpVal ic w ++ (tailFields ic kvs ++
          '\n' :: (spaces ib ++ '\x7d' :: rest))) from rfl]
      rw [ihP w ic _ [' '] (hfields (k, w) (by simp)) hfw hgu (by decide)]
      dsimp only
      have hkfresh : lookupKey acc k = none := by
        rw [lookupKey_eq_none_iff]
        intro hmem
        rw [List.map_append] at hnodup
        rcases List.nodup_append.mp hnodup with ⟨_, _, hdisj⟩
        exact hdisj hmem (by simp)
      have hsetk : setKey acc k w = acc ++ [(k, w)] := setKey_of_lookup_none acc k w hkfresh
      cases kvs with
      | nil =>
        rw [show tailFields ic ([] : List (String × PyVal)) = [] from by simp [tailFields]]
        rw [List.nil_append]
        have hsk3 : skipWs ('\n' :: (spaces ib ++ '\x7d' :: rest)) = '\x7d' :: rest := by
          rw [skipWs_nl, skipWs_ws_front _ _ (ws_spaces ib)]
          rfl
        rw [hsk3]
        dsimp only
        rw [if_neg (by decide : ¬('\x7d' : Char) = ','), if_pos rfl]
        rw [stringMk_data, hsetk]
      | cons kv kvs2 =>
        obtain ⟨k2, w2⟩ := kv
        rw [show tailFields ic ((k2, w2) :: kvs2) =
          ',' :: '\n' :: (spaces ic ++ quoteStr k2.data ++ ':' :: ' ' ::
            (dumpVal ic w2 ++ tailFields ic kvs2)) from by simp [tailFields]]
        have hsk3 : skipWs ((',' :: '\n' :: (spaces ic ++ quoteStr k2.data ++ ':' :: ' ' ::
            (dumpVal ic w2 ++ tailFields ic kvs2))) ++
            '\n' :: (spaces ib ++ '\x7d' :: rest)) =
            ',' :: (('\n' :: (spaces ic ++ quoteStr k2.data ++ ':' :: ' ' ::
              (dumpVal ic w2 ++ tailFields ic kvs2))) ++
              '\n' :: (spaces ib ++ '\x7d' :: rest)) := by
          rfl
        rw [hsk3]
        dsimp only
        rw [if_pos rfl]
        rw [stringMk_data, hsetk]
        rw [show ('\n' :: (spaces ic ++ quoteStr k2.data ++ ':' :: ' ' ::
          (dumpVal ic w2 ++ tailFields ic kvs2))) ++
          '\n' :: (spaces ib ++ '\x7d' :: rest) =
          ('\n' :: spaces ic) ++ (quoteStr k2.data ++ ':' :: ' ' ::
            (dumpVal ic w2 ++ (tailFields ic kvs2 ++
              '\n' :: (spaces ib ++ '\x7d' :: rest)))) from by simp]
        have hws : ∀ c ∈ '\n' :: spaces ic, isWsCh c = true := by
          intro c hc
          rcases List.mem_cons.mp hc with h | h
          · rw [h]
            rfl
          · exact ws_spaces ic c h
        have hfu : pvFuelFields ((k2, w2) :: kvs2) ≤ f := by
          simp only [pvFuelFields] at hfuel ⊢
          have := pvFuel_pos w
          omega
        have hnd2 : (((acc ++ [(k, w)]) ++ (k2, w2) :: kvs2).map Prod.fst).Nodup := by
          simpa using hnodup
        have := ihR k2 w2 kvs2 (acc ++ [(k, w)]) ic ib rest ('\n' :: spaces ic)
          (fun kv hkv => hfields kv (List.mem_cons_of_mem _ hkv)) hnd2 hfu hws
        rw [this]
        try simp

/-! ## Fuel bound: the fuel json_loads supplies is enough for a dumped value -/

theorem dumpVal_len_pos (ind : Nat) (v : PyVal) : 1 ≤ (dumpVal ind v).length := by
  obtain ⟨c, t, h, _, _, _⟩ := dumpVal_head ind v
  rw [h]
  simp

mutual

theorem pvFuel_le_dump (v : PyVal) (ind : Nat) : pvFuel v ≤ 2 * (dumpVal ind v).length := by
  cases v with
  | null => simp [pvFuel, dumpVal, nullChars]
  | bool b => cases b <;> simp [pvFuel, dumpVal, trueChars, falseChars]
  | num i =>
    have := dumpVal_len_pos ind (.num i)
    simp only [pvFuel]
    omega
  | str s =>
    have := dumpVal_len_pos ind (.str s)
    simp only [pvFuel]
    omega
  | arr xs =>
    cases xs with
    | nil => simp [pvFuel, pvFuelItems, dumpVal]
    | cons x t =>
      have h1 := pvFuel_le_dump x (ind + 2)
      have h2 := pvFuelItems_le t (ind + 2)
      simp only [pvFuel, pvFuelItems, dumpVal, List.length_cons, List.length_append,
        spaces, List.length_replicate]
      omega
  | obj kvs =>
    cases kvs with
    | nil => simp [pvFuel, pvFuelFields, dumpVal]
    | cons kv t =>
      obtain ⟨k, w⟩ := kv
      have h1 := pvFuel_le_dump w (ind + 2)
      have h2 := pvFuelFields_le t (ind + 2)
      simp only [pvFuel, pvFuelFields, dumpVal, List.length_cons, List.length_append,
        spaces, List.length_replicate]
      omega

theorem pvFuelItems_le (xs : List PyVal) (ind : Nat) :
    pvFuelItems xs ≤ 2 * (tailItems ind xs).length + 1 := by
  cases xs with
  | nil => simp [pvFuelItems, tailItems]
  | cons y ys =>
    have h1 := pvFuel_le_dump y ind
    have h2 := pvFuelItems_le ys ind
    simp only [pvFuelItems, tailItems, List.length_cons, List.length_append,
      spaces, List.length_replicate]
    omega

theorem pvFuelFields_le (kvs : List (String × PyVal)) (ind : Nat) :
    pvFuelFields kvs ≤ 2 * (tailFields ind kvs).length + 1 := by
  cases kvs with
  | nil => simp [pvFuelFields, tailFields]
  | cons kv t =>
    obtain ⟨k, w⟩ := kv
    have h1 := pvFuel_le_dump w ind
    have h2 := pvFuelFields_le t ind
    simp only [pvFuelFields, tailFields, List.length_cons, List.length_append,
      spaces, List.length_replicate]
    omega

end

/-! ## The roundtrip: loading a dumped well-formed value gives it back -/

theorem json_loads_dumps (v : PyVal) (h : WfVal v) : json_loads (json_dumps v) = .val v := by
  have hlen : (String.mk (dumpVal 0 v)).length = (dumpVal 0 v).length := rfl
  have hfuel : pvFuel v ≤ 2 * (String.mk (dumpVal 0 v)).length + 2 := by
    have := pvFuel_le_dump v 0
    rw [hlen]
    omega
  have hP := (parse_dump_master (2 * (String.mk (dumpVal 0 v)).length + 2)).1 v 0 [] []
    h hfuel rfl (by simp)
  rw [show ([] : List Char) ++ (dumpVal 0 v ++ []) = dumpVal 0 v from by simp] at hP
  rw [json_dumps, json_loads]
  rw [show (String.mk (dumpVal 0 v)).data = dumpVal 0 v from rfl]
  rw [hP]
  rfl

/-! ## The parser produces only well-formed values -/

theorem parseVal_zero (cs : List Char) : parseVal 0 cs = .fail := rfl

theorem parseVal_nil (f : Nat) (cs : List Char) (h : skipWs cs = []) :
    parseVal (f + 1) cs = .fail := by
  rw [show parseVal (f + 1) cs = (match skipWs cs with
    | [] => .fail
    | c :: r =>
      if c = '\x7b' then
        match skipWs r with
        | [] => .fail
        | c1 :: r1 =>
          if c1 = '\x7d' then .ok (.obj []) r1
          else parseMembers f [] (c1 :: r1)
      else if c = '[' then
        match skipWs r with
        | [] => .fail
        | c1 :: r1 =>
          if c1 = ']' then .ok (.arr []) r1
          else parseItems f [] (c1 :: r1)
      else if c = '"' then
        match parseStrBody r.length r with
        | .fail => .fail
        | .unmod => .unmod
        | .ok l rest => .ok (.str (String.mk l)) rest
      else if chStarts "true".data (c :: r) then .ok (.bool true) ((c :: r).drop 4)
      else if chStarts "false".data (c :: r) then .ok (.bool false) ((c :: r).drop 5)
      else if chStarts "null".data (c :: r) then .ok .null ((c :: r).drop 4)
      else if chStarts "NaN".data (c :: r) then .unmod
      else if chStarts "Infinity".data (c :: r) then .unmod
      else if c = '-' then
        if chStarts "Infinity".data r then .unmod
        else
          match parseNumTail r with
          | .fail => .fail
          | .unmod => .unmod
          | .ok n rest => .ok (.num (-(n : Int))) rest
      else
        match parseNumTail (c :: r) with
        | .fail => .fail
        | .unmod => .unmod
        | .ok n rest => .ok (.num (n : Int)) rest) from rfl, h]

theorem parse_wf : ∀ f : Nat,
    (∀ cs v rest, parseVal f cs = .ok v rest → WfVal v) ∧
    (∀ acc cs v rest, (∀ w ∈ acc, WfVal w) → parseItems f acc cs = .ok v rest → WfVal v) ∧
    (∀ acc cs v rest, (∀ kv ∈ acc, WfVal kv.2) → (acc.map Prod.fst).Nodup →
      parseMembers f acc cs = .ok v rest → WfVal v) := by
  intro f
  induction f with
  | zero =>
    refine ⟨fun cs v rest h => ?_, fun acc cs v rest _ h => ?_, fun acc cs v rest _ _ h => ?_⟩
    · rw [show parseVal 0 cs = .fail from rfl] at h
      cases h
    · rw [show parseItems 0 acc cs = .fail from rfl] at h
      cases h
    · rw [show parseMembers 0 acc cs = .fail from rfl] at h
      cases h
  | succ f ih =>
    obtain ⟨ihP, ihQ, ihR⟩ := ih
    refine ⟨?_, ?_, ?_⟩
    · intro cs v rest h
      rcases hsk : skipWs cs with _ | ⟨c, r⟩
      · rw [parseVal_nil f cs hsk] at h
        cases h
      · rw [parseVal_cons f cs c r hsk] at h
        by_cases h1 : c = '\x7b'
        · rw [if_pos h1] at h
          rcases hsk2 : skipWs r with _ | ⟨c1, r1⟩ <;> rw [hsk2] at h
          · cases h
          · dsimp only at h
            by_cases h2 : c1 = '\x7d'
            · rw [if_pos h2] at h
              cases h
              exact WfVal.obj [] (by simp) (by simp)
            · rw [if_neg h2] at h
              exact ihR [] _ v rest (by simp) (by simp) h
        · rw [if_neg h1] at h
          by_cases h2 : c = '['
          · rw [if_pos h2] at h
            rcases hsk2 : skipWs r with _ | ⟨c1, r1⟩ <;> rw [hsk2] at h
            · cases h
            · dsimp only at h
              by_cases h3 : c1 = ']'
              · rw [if_pos h3] at h
                cases h
                exact WfVal.arr [] (by simp)
              · rw [if_neg h3] at h
                exact ihQ [] _ v rest (by simp) h
          · rw [if_neg h2] at h
            by_cases h3 : c = '"'
            · rw [if_pos h3] at h
              rcases hps : parseStrBody r.length r with _ | _ | ⟨l, rest2⟩ <;>
                rw [hps] at h <;> dsimp only at h
              · cases h
              · cases h
              · cases h
                exact WfVal.str _
            · rw [if_neg h3] at h
              by_cases h4 : chStarts "true".data (c :: r) = true
              · rw [if_pos h4] at h
                cases h
                exact WfVal.bool true
              · rw [if_neg h4] at h
                by_cases h5 : chStarts "false".data (c :: r) = true
                · rw [if_pos h5] at h
                  cases h
                  exact WfVal.bool false
                · rw [if_neg h5] at h
                  by_cases h6 : chStarts "null".data (c :: r) = true
                  · rw [if_pos h6] at h
                    cases h
                    exact WfVal.null
                  · rw [if_neg h6] at h
                    by_cases h7 : chStarts "NaN".data (c :: r) = true
                    · rw [if_pos h7] at h
                      cases h
                    · rw [if_neg h7] at h
                      by_cases h8 : chStarts "Infinity".data (c :: r) = true
                      · rw [if_pos h8] at h
                        cases h
                      · rw [if_neg h8] at h
                        by_cases h9 : c = '-'
                        · rw [if_pos h9] at h
                          by_cases h10 : chStarts "Infinity".data r = true
                          · rw [if_pos h10] at h
                            cases h
                          · rw [if_neg h10] at h
                            rcases hnt : parseNumTail r with _ | _ | ⟨n, rest2⟩ <;>
                              rw [hnt] at h <;> dsimp only at h
                            · cases h
                            · cases h
                            · cases h
                              exact WfVal.num _
                        · rw [if_neg h9] at h
                          rcases hnt : parseNumTail (c :: r) with _ | _ | ⟨n, rest2⟩ <;>
                            rw [hnt] at h <;> dsimp only at h
                          · cases h
                          · cases h
                          · cases h
                            exact WfVal.num _
    · intro acc cs v rest hacc h
      rw [parseItems_succ] at h
      rcases hpv : parseVal f cs with _ | _ | ⟨w, rest1⟩ <;> rw [hpv] at h <;> dsimp only at h
      · cases h
      · cases h
      · rcases hsk : skipWs rest1 with _ | ⟨c2, r2⟩ <;> rw [hsk] at h <;> dsimp only at h
        · cases h
        · have hw : WfVal w := ihP cs w rest1 hpv
          by_cases h1 : c2 = ','
          · rw [if_pos h1] at h
            refine ihQ (acc ++ [w]) r2 v rest ?_ h
            intro u hu
            rcases List.mem_append.mp hu with h' | h'
            · exact hacc u h'
            · rw [List.mem_singleton] at h'
              rw [h']
              exact hw
          · rw [if_neg h1] at h
            by_cases h2 : c2 = ']'
            · rw [if_pos h2] at h
              cases h
              refine WfVal.arr _ ?_
              intro u hu
              rcases List.mem_append.mp hu with h' | h'
              · exact hacc u h'
              · rw [List.mem_singleton] at h'
                rw [h']
                exact hw
            · rw [if_neg h2] at h
              cases h
    · intro acc cs v rest hacc hnd h
      rcases hsk : skipWs cs with _ | ⟨c, r⟩
      · rw [show parseMembers (f + 1) acc cs = (match skipWs cs with
          | [] => .fail
          | c :: r =>
            if c = '"' then
              match parseStrBody r.length r with
              | .fail => .fail
              | .unmod => .unmod
              | .ok kl rest =>
                match skipWs rest with
                | [] => .fail
                | c2 :: r2 =>
                  if c2 = ':' then
                    match parseVal f r2 with
                    | .fail => .fail
                    | .unmod => .unmod
                    | .ok v r3 =>
                      match skipWs r3 with
                      | [] => .fail
                      | c3 :: r4 =>
                        if c3 = ',' then parseMembers f (setKey acc (String.mk kl) v) r4
                        else if c3 = '\x7d' then
                          .ok (.obj (setKey acc (String.mk kl) v)) r4
                        else .fail
                  else .fail
            else .fail) from rfl, hsk] at h
        cases h
      · rw [parseMembers_cons f acc cs c r hsk] at h
        by_cases h1 : c = '"'
        · rw [if_pos h1] at h
          rcases hps : parseStrBody r.length r with _ | _ | ⟨kl, rest2⟩ <;>
            rw [hps] at h <;> dsimp only at h
          · cases h
          · cases h
          · rcases hsk2 : skipWs rest2 with _ | ⟨c2, r2⟩ <;> rw [hsk2] at h <;> dsimp only at h
            · cases h
            · by_cases h2 : c2 = ':'
              · rw [if_pos h2] at h
                rcases hpv : parseVal f r2 with _ | _ | ⟨w, r3⟩ <;>
                  rw [hpv] at h <;> dsimp only at h
                · cases h
                · cases h
                · rcases hsk3 : skipWs r3 with _ | ⟨c3, r4⟩ <;> rw [hsk3] at h <;>
                    dsimp only at h
                  · cases h
                  · have hw : WfVal w := ihP r2 w r3 hpv
                    have hacc2 : ∀ kv ∈ setKey acc (String.mk kl) w, WfVal kv.2 := by
                      intro kv hkv
                      rcases mem_setKey acc (String.mk kl) w kv hkv with h' | h'
                      · rw [h']
                        exact hw
                      · exact hacc kv h'
                    have hnd2 : ((setKey acc (String.mk kl) w).map Prod.fst).Nodup :=
                      nodup_keys_setKey acc (String.mk kl) w hnd
                    by_cases h3 : c3 = ','
                    · rw [if_pos h3] at h
                      exact ihR _ r4 v rest hacc2 hnd2 h
                    · rw [if_neg h3] at h
                      by_cases h4 : c3 = '\x7d'
                      · rw [if_pos h4] at h
                        cases h
                        exact WfVal.obj _ hacc2 hnd2
                      · rw [if_neg h4] at h
                        cases h
              · rw [if_neg h2] at h
                cases h
        · rw [if_neg h1] at h
          cases h

/-! ## Trimming preserves well-formedness -/

theorem lookupKey_mem (d : List (String × PyVal)) (k : String) (v : PyVal)
    (h : lookupKey d k = some v) : (k, v) ∈ d := by
  induction d with
  | nil => simp [lookupKey] at h
  | cons kv t ih =>
    obtain ⟨k', w⟩ := kv
    by_cases hk : k' = k
    · simp only [lookupKey, if_pos hk] at h
      cases h
      rw [hk]
      exact List.mem_cons_self _ _
    · simp only [lookupKey, if_neg hk] at h
      exact List.mem_cons_of_mem _ (ih h)

theorem wfVal_trimmedOpt (n : Nat) (o : Option PyVal) (v : PyVal)
    (hw : ∀ u, o = some u → WfVal u) (h : trimmedOpt n o = some v) : WfVal v := by
  cases o with
  | none => simp [trimmedOpt] at h
  | some u =>
    cases u with
    | arr l =>
      rw [show trimmedOpt n (some (.arr l)) = some (.arr (l.take n)) from rfl] at h
      cases h
      have hwu := hw (.arr l) rfl
      cases hwu with
      | arr _ hall =>
        exact WfVal.arr _ fun x hx => hall x (List.mem_of_mem_take hx)
    | str s =>
      rw [show trimmedOpt n (some (.str s)) =
        some (.str (String.mk (s.data.take n))) from rfl] at h
      cases h
      exact WfVal.str _
    | null =>
      rw [show trimmedOpt n (some PyVal.null) = some PyVal.null from rfl] at h
      cases h
      exact hw _ rfl
    | bool b =>
      rw [show trimmedOpt n (some (PyVal.bool b)) = some (PyVal.bool b) from rfl] at h
      cases h
      exact hw _ rfl
    | num i =>
      rw [show trimmedOpt n (some (PyVal.num i)) = some (PyVal.num i) from rfl] at h
      cases h
      exact hw _ rfl
    | obj kvs =>
      rw [show trimmedOpt n (some (PyVal.obj kvs)) = some (PyVal.obj kvs) from rfl] at h
      cases h
      exact hw _ rfl

theorem wfVal_trimReports (v v' : PyVal) (hw : WfVal v) (h : trimReports v = .ok v') :
    WfVal v' := by
  cases v with
  | null => exact absurd h (by simp [show trimReports .null = .error .typeError from rfl])
  | bool b => exact absurd h (by cases b <;>
      simp [show ∀ bb, trimReports (.bool bb) = .error .typeError from fun bb => rfl])
  | num i => exact absurd h (by simp [show trimReports (.num i) = .error .typeError from rfl])
  | str s =>
    by_cases hs : trimSafe (.str s) = true
    · rw [trimReports_str_safe s hs] at h
      cases h
      exact WfVal.str s
    · rw [trimReports_str_err s
        (by cases hbb : trimSafe (.str s); rfl; exact absurd hbb hs)] at h
      cases h
  | arr xs =>
    by_cases hs : trimSafe (.arr xs) = true
    · rw [trimReports_arr_safe xs hs] at h
      cases h
      exact hw
    · rw [trimReports_arr_err xs
        (by cases hbb : trimSafe (.arr xs); rfl; exact absurd hbb hs)] at h
      cases h
  | obj d =>
    by_cases ha : sliceableOpt (lookupKey d "annualReports") = true
    · by_cases hq : sliceableOpt (lookupKey d "quarterlyReports") = true
      · obtain ⟨d2, h2, h2a, h2q, _, h2n, h2m⟩ := trimReports_obj_ok d ha hq
        rw [h2] at h
        cases h
        cases hw with
        | obj _ hall hnd =>
          refine WfVal.obj d2 ?_ (h2n hnd)
          intro kv hkv
          rcases h2m kv hkv with h' | ⟨_, h'⟩ | ⟨_, h'⟩
          · exact hall kv h'
          · exact wfVal_trimmedOpt _ _ _
              (fun u hu => hall _ (lookupKey_mem d _ u hu)) h'.symm
          · exact wfVal_trimmedOpt _ _ _
              (fun u hu => hall _ (lookupKey_mem d _ u hu)) h'.symm
      · rw [trimReports_obj_err d (fun hh => hq hh.2)] at h
        cases h
    · rw [trimReports_obj_err d (fun hh => ha hh.1)] at h
      cases h

/-! ## The dumped output is pure ASCII (`ensure_ascii=True`) -/

theorem digitChar_ascii (n : Nat) : (digitChar n).toNat < 128 := by
  have h1 : digitChar n = digitChar (n % 10) := by
    unfold digitChar
    congr 1
    omega
  rw [h1, digitChar_toNat_lt (n % 10) (Nat.mod_lt _ (by omega))]
  omega

theorem parseHexDigit_some_ascii (c : Char) (m : Nat) (h : parseHexDigit c = some m) :
    c.toNat < 128 := by
  rw [parseHexDigit] at h
  by_cases h1 : 48 ≤ c.toNat ∧ c.toNat ≤ 57
  · omega
  · rw [if_neg h1] at h
    by_cases h2 : 97 ≤ c.toNat ∧ c.toNat ≤ 102
    · omega
    · rw [if_neg h2] at h
      by_cases h3 : 65 ≤ c.toNat ∧ c.toNat ≤ 70
      · omega
      · rw [if_neg h3] at h
        cases h

theorem hexChar_ascii (n : Nat) (h : n < 16) : (hexChar n).toNat < 128 :=
  parseHexDigit_some_ascii _ _ (parseHexDigit_hexChar ⟨n, h⟩)

theorem hex4_ascii (n : Nat) : ∀ c ∈ hex4 n, c.toNat < 128 := by
  intro c hc
  simp only [hex4, List.mem_cons, List.not_mem_nil, or_false] at hc
  rcases hc with rfl | rfl | rfl | rfl
  · exact hexChar_ascii _ (Nat.mod_lt _ (by omega))
  · exact hexChar_ascii _ (Nat.mod_lt _ (by omega))
  · exact hexChar_ascii _ (Nat.mod_lt _ (by omega))
  · exact hexChar_ascii _ (Nat.mod_lt _ (by omega))

theorem natDigits_ascii (n : Nat) : ∀ c ∈ natDigits n, c.toNat < 128 := by
  intro c hc
  have h := natDigits_all_digits n c hc
  simp only [isDigitCh, Bool.and_eq_true, decide_eq_true_eq] at h
  omega

theorem intChars_ascii (i : Int) : ∀ c ∈ intChars i, c.toNat < 128 := by
  intro c hc
  rw [intChars] at hc
  by_cases h : i < 0
  · rw [if_pos h] at hc
    rcases List.mem_cons.mp hc with rfl | hc'
    · decide
    · exact natDigits_ascii _ c hc'
  · rw [if_neg h] at hc
    exact natDigits_ascii _ c hc

theorem escChar_ascii (c : Char) : ∀ c' ∈ escChar c, c'.toNat < 128 := by
  intro c' hc
  rw [escChar] at hc
  by_cases h1 : c = '"'
  · rw [if_pos h1] at hc
    rcases List.mem_cons.mp hc with rfl | hc'
    · decide
    · rcases List.mem_singleton.mp hc' with rfl
      decide
  · rw [if_neg h1] at hc
    by_cases h2 : c = '\\'
    · rw [if_pos h2] at hc
      rcases List.mem_cons.mp hc with rfl | hc'
      · decide
      · rcases List.mem_singleton.mp hc' with rfl
        decide
    · rw [if_neg h2] at hc
      by_cases h3 : 32 ≤ c.toNat ∧ c.toNat ≤ 126
      · rw [if_pos h3] at hc
        rcases List.mem_singleton.mp hc with rfl
        omega
      · rw [if_neg h3] at hc
        by_cases h4 : c = '\x08'
        · rw [if_pos h4] at hc
          rcases List.mem_cons.mp hc with rfl | hc'
          · decide
          · rcases List.mem_singleton.mp hc' with rfl
            decide
        · rw [if_neg h4] at hc
          by_cases h5 : c = '\t'
          · rw [if_pos h5] at hc
            rcases List.mem_cons.mp hc with rfl | hc'
            · decide
            · rcases List.mem_singleton.mp hc' with rfl
              decide
          · rw [if_neg h5] at hc
            by_cases h6 : c = '\n'
            · rw [if_pos h6] at hc
              rcases List.mem_cons.mp hc with rfl | hc'
              · decide
              · rcases List.mem_singleton.mp hc' with rfl
                decide
            · rw [if_neg h6] at hc
              by_cases h7 : c = '\x0c'
              · rw [if_pos h7] at hc
                rcases List.mem_cons.mp hc with rfl | hc'
                · decide
                · rcases List.mem_singleton.mp hc' with rfl
                  decide
              · rw [if_neg h7] at hc
                by_cases h8 : c = '\r'
                · rw [if_pos h8] at hc
                  rcases List.mem_cons.mp hc with rfl | hc'
                  · decide
                  · rcases List.mem_singleton.mp hc' with rfl
                    decide
                · rw [if_neg h8] at hc
                  by_cases h9 : c.toNat < 65536
                  · rw [if_pos h9] at hc
                    rcases List.mem_cons.mp hc with rfl | hc'
                    · decide
                    · rcases List.mem_cons.mp hc' with rfl | hc''
                      · decide
                      · exact hex4_ascii _ c' hc''
                  · rw [if_neg h9] at hc
                    rcases List.mem_append.mp hc with hc' | hc'
                    · rcases List.mem_cons.mp hc' with rfl | hc''
                      · decide
                      · rcases List.mem_cons.mp hc'' with rfl | hc3
                        · decide
                        · exact hex4_ascii _ c' hc3
                    · rcases List.mem_cons.mp hc' with rfl | hc''
                      · decide
                      · rcases List.mem_cons.mp hc'' with rfl | hc3
                        · decide
                        · exact hex4_ascii _ c' hc3

theorem quoteStr_ascii (l : List Char) : ∀ c ∈ quoteStr l, c.toNat < 128 := by
  intro c hc
  rw [quoteStr] at hc
  rcases List.mem_cons.mp hc with rfl | hc'
  · decide
  · rcases List.mem_append.mp hc' with hc'' | hc''
    · rw [escBody] at hc''
      rcases List.mem_flatten.mp hc'' with ⟨piece, hp, hcp⟩
      rcases List.mem_map.mp hp with ⟨ch, _, rfl⟩
      exact escChar_ascii ch c hcp
    · rcases List.mem_singleton.mp hc'' with rfl
      decide

theorem spaces_ascii (n : Nat) : ∀ c ∈ spaces n, c.toNat < 128 := by
  intro c hc
  have h : c = ' ' := List.eq_of_mem_replicate (by simpa [spaces] using hc)
  rw [h]
  decide

mutual

theorem dumpVal_ascii (ind : Nat) (v : PyVal) : ∀ c ∈ dumpVal ind v, c.toNat < 128 := by
  cases v with
  | null =>
    intro c hc
    simp only [dumpVal, nullChars, List.mem_cons, List.not_mem_nil, or_false] at hc
    rcases hc with rfl | rfl | rfl | rfl <;> decide
  | bool b =>
    cases b <;>
      · intro c hc
        simp only [dumpVal, trueChars, falseChars, List.mem_cons, List.not_mem_nil,
          or_false] at hc
        rcases hc with rfl | rfl | rfl | rfl | rfl <;> first | decide | (rcases hc with rfl; decide)
  | num i =>
    intro c hc
    simp only [dumpVal] at hc
    exact intChars_ascii i c hc
  | str s =>
    intro c hc
    simp only [dumpVal] at hc
    exact quoteStr_ascii s.data c hc
  | arr xs =>
    cases xs with
    | nil =>
      intro c hc
      simp only [dumpVal, List.mem_cons, List.not_mem_nil, or_false] at hc
      rcases hc with rfl | rfl <;> decide
    | cons x xs =>
      intro c hc
      simp only [dumpVal, List.mem_cons, List.mem_append, List.not_mem_nil, or_false] at hc
      rcases hc with rfl | rfl | ((hc' | hc') | hc') | rfl | (hc' | rfl)
      · decide
      · decide
      · exact spaces_ascii _ c hc'
      · exact dumpVal_ascii _ x c hc'
      · exact tailItems_ascii _ xs c hc'
      · decide
      · exact spaces_ascii _ c hc'
      · decide
  | obj kvs =>
    cases kvs with
    | nil =>
      intro c hc
      simp only [dumpVal, List.mem_cons, List.not_mem_nil, or_false] at hc
      rcases hc with rfl | rfl <;> decide
    | cons kv kvs =>
      obtain ⟨k, w⟩ := kv
      intro c hc
      simp only [dumpVal, List.mem_cons, List.mem_append, List.not_mem_nil, or_false] at hc
      rcases hc with rfl | rfl | (hc' | hc') | rfl | rfl | (hc' | hc') | rfl | (hc' | rfl)
      · decide
      · decide
      · exact spaces_ascii _ c hc'
      · exact quoteStr_ascii k.data c hc'
      · decide
      · decide
      · exact dumpVal_ascii _ w c hc'
      · exact tailFields_ascii _ kvs c hc'
      · decide
      · exact spaces_ascii _ c hc'
      · decide

theorem tailItems_ascii (ind : Nat) (xs : List PyVal) :
    ∀ c ∈ tailItems ind xs, c.toNat < 128 := by
  cases xs with
  | nil =>
    intro c hc
    simp [tailItems] at hc
  | cons y ys =>
    intro c hc
    simp only [tailItems, List.mem_cons, List.mem_append] at hc
    rcases hc with rfl | rfl | (hc' | hc') | hc'
    · decide
    · decide
    · exact spaces_ascii _ c hc'
    · exact dumpVal_ascii _ y c hc'
    · exact tailItems_ascii _ ys c hc'

theorem tailFields_ascii (ind : Nat) (kvs : List (String × PyVal)) :
    ∀ c ∈ tailFields ind kvs, c.toNat < 128 := by
  cases kvs with
  | nil =>
    intro c hc
    simp [tailFields] at hc
  | cons kv kvs =>
    obtain ⟨k, w⟩ := kv
    intro c hc
    simp only [tailFields, List.mem_cons, List.mem_append] at hc
    rcases hc with rfl | rfl | (hc' | hc') | rfl | rfl | hc' | hc'
    · decide
    · decide
    · exact spaces_ascii _ c hc'
    · exact quoteStr_ascii k.data c hc'
    · decide
    · decide
    · exact dumpVal_ascii _ w c hc'
    · exact tailFields_ascii _ kvs c hc'

end

theorem json_dumps_ascii (v : PyVal) : ∀ c ∈ (json_dumps v).data, c.toNat < 128 := by
  intro c hc
  rw [json_dumps] at hc
  exact dumpVal_ascii 0 v c hc

/-! ## Top-level helpers about `_trim_financial_reports` -/

theorem trim_eq_of_loads_val (s : String) (v : PyVal) (h : json_loads s = .val v) :
    _trim_financial_reports s = some ((trimReports v).map json_dumps) := by
  rw [show _trim_financial_reports s = (match json_loads s with
    | .fail => some (.ok s)
    | .unmodeled => none
    | .val data => some ((trimReports data).map json_dumps)) from rfl, h]

theorem trim_eq_of_loads_fail (s : String) (h : json_loads s = .fail) :
    _trim_financial_reports s = some (.ok s) := by
  rw [show _trim_financial_reports s = (match json_loads s with
    | .fail => some (.ok s)
    | .unmodeled => none
    | .val data => some ((trimReports data).map json_dumps)) from rfl, h]

theorem trim_eq_of_loads_unmod (s : String) (h : json_loads s = .unmodeled) :
    _trim_financial_reports s = none := by
  rw [show _trim_financial_reports s = (match json_loads s with
    | .fail => some (.ok s)
    | .unmodeled => none
    | .val data => some ((trimReports data).map json_dumps)) from rfl, h]

theorem json_loads_wf (s : String) (v : PyVal) (h : json_loads s = .val v) : WfVal v := by
  rw [show json_loads s = (match parseVal (2 * s.length + 2) s.data with
    | .fail => .fail
    | .unmod => .unmodeled
    | .ok w rest =>
      match skipWs rest with
      | [] => .val w
      | _ => .fail) from rfl] at h
  rcases hpv : parseVal (2 * s.length + 2) s.data with _ | _ | ⟨w, rest⟩ <;>
    rw [hpv] at h <;> dsimp only at h
  · cases h
  · cases h
  · rcases hsk : skipWs rest with _ | ⟨c, r⟩ <;> rw [hsk] at h <;> dsimp only at h
    · cases h
      exact (parse_wf _).1 _ _ _ hpv
    · cases h

theorem trimSafe_true_ok (v : PyVal) (h : trimSafe v = true) :
    ∃ v', trimReports v = .ok v' := by
  cases v with
  | null => simp [trimSafe] at h
  | bool b => cases b <;> simp [trimSafe] at h
  | num i => simp [trimSafe] at h
  | str s => exact ⟨_, trimReports_str_safe s h⟩
  | arr xs => exact ⟨_, trimReports_arr_safe xs h⟩
  | obj d =>
    rw [show trimSafe (.obj d) = (sliceableOpt (lookupKey d "annualReports") &&
      sliceableOpt (lookupKey d "quarterlyReports")) from rfl, Bool.and_eq_true] at h
    obtain ⟨d', h', _⟩ := trimReports_obj_ok d h.1 h.2
    exact ⟨_, h'⟩

theorem trimSafe_false_err (v : PyVal) (h : trimSafe v = false) :
    trimReports v = .error .typeError := by
  cases v with
  | null => rfl
  | bool b => cases b <;> rfl
  | num i => rfl
  | str s => exact trimReports_str_err s h
  | arr xs => exact trimReports_arr_err xs h
  | obj d =>
    rw [show trimSafe (.obj d) = (sliceableOpt (lookupKey d "annualReports") &&
      sliceableOpt (lookupKey d "quarterlyReports")) from rfl,
      Bool.and_eq_false_iff] at h
    refine trimReports_obj_err d ?_
    intro hh
    rcases h with h | h
    · rw [hh.1] at h
      cases h
    · rw [hh.2] at h
      cases h

theorem trimSafe_nonobj_ok (v : PyVal) (hno : ∀ d, v ≠ PyVal.obj d)
    (h : trimSafe v = true) : trimReports v = .ok v := by
  cases v with
  | null => simp [trimSafe] at h
  | bool b => cases b <;> simp [trimSafe] at h
  | num i => simp [trimSafe] at h
  | str s => exact trimReports_str_safe s h
  | arr xs => exact trimReports_arr_safe xs h
  | obj d => exact absurd rfl (hno d)

/-! ## The claims -/

/-- C1: amended.  For an input that parses as a JSON object whose two
report fields are each absent, a list, or a string, the trimmer returns a
re-serialized object that parses back; a present `annualReports` list is
cut to its first `MAX_ANNUAL_REPORTS` entries and a present
`quarterlyReports` list to its first `MAX_QUARTERLY_REPORTS`, so the
output lengths obey the `min` law and the retained entries are exactly
the leading entries of the input in order.  The claim as stated omits the
proviso on the sibling report field: when the other report field holds an
unsliceable value the function raises `TypeError` instead of returning
(see the counterexample). -/
theorem trim_reports_lengths (s : String) (d : List (String × PyVal))
    (hs : json_loads s = .val (.obj d))
    (ha : sliceableOpt (lookupKey d "annualReports") = true)
    (hq : sliceableOpt (lookupKey d "quarterlyReports") = true) :
    ∃ d', _trim_financial_reports s = some (.ok (json_dumps (.obj d'))) ∧
      json_loads (json_dumps (.obj d')) = .val (.obj d') ∧
      (∀ l, lookupKey d "annualReports" = some (.arr l) →
        lookupKey d' "annualReports" = some (.arr (l.take MAX_ANNUAL_REPORTS)) ∧
        (l.take MAX_ANNUAL_REPORTS).length = min MAX_ANNUAL_REPORTS l.length) ∧
      (∀ l, lookupKey d "quarterlyReports" = some (.arr l) →
        lookupKey d' "quarterlyReports" = some (.arr (l.take MAX_QUARTERLY_REPORTS)) ∧
        (l.take MAX_QUARTERLY_REPORTS).length = min MAX_QUARTERLY_REPORTS l.length) := by
  obtain ⟨d2, h2, h2a, h2q, _, _, _⟩ := trimReports_obj_ok d ha hq
  have hwf : WfVal (.obj d2) := wfVal_trimReports _ _ (json_loads_wf s _ hs) h2
  refine ⟨d2, ?_, json_loads_dumps _ hwf, ?_, ?_⟩
  · rw [trim_eq_of_loads_val s _ hs, h2]
    rfl
  · intro l hl
    rw [hl] at h2a
    exact ⟨h2a, by simp⟩
  · intro l hl
    rw [hl] at h2q
    exact ⟨h2q, by simp⟩

/-- C1 counterexample to the unamended claim: an object with an
`annualReports` list but `null` under `quarterlyReports` makes the
trimmer raise `TypeError` rather than return a trimmed object. -/
theorem trim_reports_lengths_cex :
    json_loads "\x7b\"annualReports\": [], \"quarterlyReports\": null\x7d" =
      .val (.obj [("annualReports", .arr []), ("quarterlyReports", .null)]) ∧
    _trim_financial_reports "\x7b\"annualReports\": [], \"quarterlyReports\": null\x7d" =
      some (.error .typeError) := ⟨rfl, rfl⟩

/-- C1 witness: a three-entry `annualReports` list is cut to two. -/
theorem trim_reports_lengths_witness :
    json_loads "\x7b\"annualReports\": [1, 2, 3]\x7d" =
      .val (.obj [("annualReports", .arr [.num 1, .num 2, .num 3])]) ∧
    (∃ d', _trim_financial_reports "\x7b\"annualReports\": [1, 2, 3]\x7d" =
        some (.ok (json_dumps (.obj d'))) ∧
      json_loads (json_dumps (.obj d')) = .val (.obj d') ∧
      (∀ l, lookupKey [("annualReports", PyVal.arr [.num 1, .num 2, .num 3])]
          "annualReports" = some (.arr l) →
        lookupKey d' "annualReports" = some (.arr (l.take MAX_ANNUAL_REPORTS)) ∧
        (l.take MAX_ANNUAL_REPORTS).length = min MAX_ANNUAL_REPORTS l.length) ∧
      (∀ l, lookupKey [("annualReports", PyVal.arr [.num 1, .num 2, .num 3])]
          "quarterlyReports" = some (.arr l) →
        lookupKey d' "quarterlyReports" = some (.arr (l.take MAX_QUARTERLY_REPORTS)) ∧
        (l.take MAX_QUARTERLY_REPORTS).length = min MAX_QUARTERLY_REPORTS l.length)) :=
  ⟨rfl, trim_reports_lengths "\x7b\"annualReports\": [1, 2, 3]\x7d"
    [("annualReports", PyVal.arr [.num 1, .num 2, .num 3])] rfl rfl rfl⟩

/-- C2: for every input on which `json.loads` fails to decode, the
trimmer returns the input string unchanged. -/
theorem trim_not_json (s : String) (h : json_loads s = .fail) :
    _trim_financial_reports s = some (.ok s) := trim_eq_of_loads_fail s h

/-- C2 witness: plain non-JSON text comes back unchanged. -/
theorem trim_not_json_witness :
    json_loads "not json" = .fail ∧
    _trim_financial_reports "not json" = some (.ok "not json") :=
  ⟨rfl, trim_not_json "not json" rfl⟩

/-- C3: amended.  The trimmer does not return normally on every input:
on a successfully parsed value it raises `TypeError` exactly when the
value is not trim-safe (an `int`, `bool` or `None` top level, a report
field that is neither list nor string, a list containing one of the two
key strings, or a string containing one of them as a substring), and
returns a string exactly when the value is trim-safe.  The claim as
stated — never raises on any input — is refuted by the counterexample. -/
theorem trim_raise_characterization (s : String) (v : PyVal)
    (h : json_loads s = .val v) :
    (trimSafe v = true ∧ ∃ r, _trim_financial_reports s = some (.ok r)) ∨
    (trimSafe v = false ∧ _trim_financial_reports s = some (.error .typeError)) := by
  rw [trim_eq_of_loads_val s v h]
  cases hts : trimSafe v with
  | true =>
    obtain ⟨v', hv'⟩ := trimSafe_true_ok v hts
    exact Or.inl ⟨rfl, ⟨json_dumps v', by rw [hv']; rfl⟩⟩
  | false => exact Or.inr ⟨rfl, by rw [trimSafe_false_err v hts]; rfl⟩

/-- C3 counterexample: the valid JSON input `5` parses to an `int`, on
which the membership test `"annualReports" in 5` raises `TypeError`,
which propagates out of the function. -/
theorem trim_raise_characterization_cex :
    json_loads "5" = .val (.num 5) ∧
    _trim_financial_reports "5" = some (.error .typeError) := ⟨rfl, rfl⟩

/-- C3 witness: the empty object is trim-safe and returns a string. -/
theorem trim_raise_characterization_witness :
    json_loads "\x7b\x7d" = .val (.obj []) ∧
    ((trimSafe (.obj []) = true ∧
      ∃ r, _trim_financial_reports "\x7b\x7d" = some (.ok r)) ∨
    (trimSafe (.obj []) = false ∧
      _trim_financial_reports "\x7b\x7d" = some (.error .typeError))) :=
  ⟨rfl, trim_raise_characterization "\x7b\x7d" (.obj []) rfl⟩

/-- C4: amended.  A parsed non-object top-level value is re-serialized
unchanged only when it is trim-safe (a list not containing either report
key string, or a string not containing either as a substring); every
scalar — and a list or string mentioning a report key — instead raises
`TypeError`, because the statement `"annualReports" in data` either
raises on scalars or succeeds and leads to `data["annualReports"]`,
which raises on lists and strings.  The claim as stated is refuted by
the counterexample. -/
theorem trim_nonobject (s : String) (v : PyVal) (h : json_loads s = .val v)
    (hno : ∀ d, v ≠ PyVal.obj d) :
    (trimSafe v = true ∧ _trim_financial_reports s = some (.ok (json_dumps v))) ∨
    (trimSafe v = false ∧ _trim_financial_reports s = some (.error .typeError)) := by
  rw [trim_eq_of_loads_val s v h]
  cases hts : trimSafe v with
  | true => exact Or.inl ⟨rfl, by rw [trimSafe_nonobj_ok v hno hts]; rfl⟩
  | false => exact Or.inr ⟨rfl, by rw [trimSafe_false_err v hts]; rfl⟩

/-- C4 counterexample: the valid non-object JSON input `true` is not
re-serialized; the trimmer raises `TypeError`. -/
theorem trim_nonobject_cex :
    json_loads "true" = .val (.bool true) ∧
    _trim_financial_reports "true" = some (.error .typeError) := ⟨rfl, rfl⟩

/-- C4 witness: a harmless one-element list is re-serialized unchanged. -/
theorem trim_nonobject_witness :
    json_loads "[1]" = .val (.arr [.num 1]) ∧
    (∀ d, PyVal.arr [.num 1] ≠ PyVal.obj d) ∧
    ((trimSafe (PyVal.arr [.num 1]) = true ∧
      _trim_financial_reports "[1]" = some (.ok (json_dumps (.arr [.num 1])))) ∨
    (trimSafe (PyVal.arr [.num 1]) = false ∧
      _trim_financial_reports "[1]" = some (.error .typeError))) :=
  ⟨rfl, fun d h => PyVal.noConfusion h,
    trim_nonobject "[1]" (.arr [.num 1]) rfl (fun d h => PyVal.noConfusion h)⟩

/-- C5: amended.  When the trimmer succeeds on a parsed object — which,
beyond parsing, requires both report fields to be absent, lists, or
strings — every other key maps to its original value in the output
object, and when both report fields are absent the output object is the
input object itself, re-serialized.  The claim as stated omits the
success proviso: an unsliceable report field makes the function raise,
and then no other field appears in any output (see the
counterexample). -/
theorem trim_frame (s : String) (d : List (String × PyVal))
    (hs : json_loads s = .val (.obj d))
    (ha : sliceableOpt (lookupKey d "annualReports") = true)
    (hq : sliceableOpt (lookupKey d "quarterlyReports") = true) :
    ∃ d', trimReports (.obj d) = .ok (.obj d') ∧
      _trim_financial_reports s = some (.ok (json_dumps (.obj d'))) ∧
      (∀ k, k ≠ "annualReports" → k ≠ "quarterlyReports" →
        lookupKey d' k = lookupKey d k) ∧
      (lookupKey d "annualReports" = none → lookupKey d "quarterlyReports" = none →
        d' = d) := by
  obtain ⟨d2, h2, _, _, hoth, _, _⟩ := trimReports_obj_ok d ha hq
  refine ⟨d2, h2, ?_, hoth, ?_⟩
  · rw [trim_eq_of_loads_val s _ hs, h2]
    rfl
  · intro hna hnq
    have hid : trimReports (.obj d) = .ok (.obj d) := by
      have h1 : trimField "annualReports" MAX_ANNUAL_REPORTS (.obj d) = .ok (.obj d) :=
        trimField_obj_absent d _ _ hna
      have hq1 : trimField "quarterlyReports" MAX_QUARTERLY_REPORTS (.obj d) =
          .ok (.obj d) :=
        trimField_obj_absent d _ _ hnq
      simp [trimReports, h1, hq1, exBindOk]
    rw [hid] at h2
    injection h2 with h3
    injection h3 with h4
    exact h4.symm

/-- C5 counterexample to the unamended claim: the field `extra` does not
survive to any output, because the unsliceable `annualReports` value
makes the trimmer raise `TypeError`. -/
theorem trim_frame_cex :
    json_loads "\x7b\"extra\": 1, \"annualReports\": 0\x7d" =
      .val (.obj [("extra", .num 1), ("annualReports", .num 0)]) ∧
    _trim_financial_reports "\x7b\"extra\": 1, \"annualReports\": 0\x7d" =
      some (.error .typeError) := ⟨rfl, rfl⟩

/-- C5 witness: an object with one unrelated field and no report fields
passes through with that field intact and unchanged as a whole. -/
theorem trim_frame_witness :
    json_loads "\x7b\"a\": 1\x7d" = .val (.obj [("a", .num 1)]) ∧
    (∃ d', trimReports (.obj [("a", PyVal.num 1)]) = .ok (.obj d') ∧
      _trim_financial_reports "\x7b\"a\": 1\x7d" = some (.ok (json_dumps (.obj d'))) ∧
      (∀ k, k ≠ "annualReports" → k ≠ "quarterlyReports" →
        lookupKey d' k = lookupKey [("a", PyVal.num 1)] k) ∧
      (lookupKey [("a", PyVal.num 1)] "annualReports" = none →
        lookupKey [("a", PyVal.num 1)] "quarterlyReports" = none →
        d' = [("a", PyVal.num 1)])) :=
  ⟨rfl, trim_frame "\x7b\"a\": 1\x7d" [("a", PyVal.num 1)] rfl rfl rfl⟩

/-- C6: the trimmer is idempotent on returned strings: whenever it
returns a string (rather than raising or passing through an unmodeled
float payload), running it again on that string returns the same string
unchanged. -/
theorem trim_idempotent (s r : String)
    (h : _trim_financial_reports s = some (.ok r)) :
    _trim_financial_reports r = some (.ok r) := by
  cases hl : json_loads s with
  | fail =>
    rw [trim_eq_of_loads_fail s hl] at h
    injection h with h1
    injection h1 with h2
    rw [← h2]
    exact trim_eq_of_loads_fail s hl
  | unmodeled =>
    rw [trim_eq_of_loads_unmod s hl] at h
    cases h
  | val v =>
    rw [trim_eq_of_loads_val s v hl] at h
    cases htr : trimReports v with
    | error e =>
      rw [htr] at h
      simp [Except.map] at h
    | ok v' =>
      rw [htr] at h
      have hr : r = json_dumps v' := by
        injection h with h1
        injection h1 with h2
        exact h2.symm
      have hwf : WfVal v' := wfVal_trimReports v v' (json_loads_wf s v hl) htr
      have hload : json_loads r = .val v' := by
        rw [hr]
        exact json_loads_dumps v' hwf
      rw [trim_eq_of_loads_val r v' hload, trimReports_idem v v' htr, hr]
      rfl

/-- C6 witness: trimming `"\x7b \x7d"` yields `"\x7b\x7d"`, and trimming
that output returns it unchanged. -/
theorem trim_idempotent_witness :
    _trim_financial_reports "\x7b \x7d" = some (.ok "\x7b\x7d") ∧
    _trim_financial_reports "\x7b\x7d" = some (.ok "\x7b\x7d") :=
  ⟨rfl, trim_idempotent "\x7b \x7d" "\x7b\x7d" rfl⟩

/-- C7: `get_fundamentals` returns exactly the request helper's raw
response for report type `OVERVIEW` with the single parameter `symbol`
bound to the ticker, whatever that response is — no trimming. -/
theorem get_fundamentals_raw (req : String → List (String × String) → String)
    (ticker : String) (curr_date : Option String) :
    get_fundamentals req ticker curr_date = req "OVERVIEW" [("symbol", ticker)] := rfl

/-- C8: each of the three statement retrievers is exactly the trimmer
applied to the helper's response for its fixed report type with the
single parameter `symbol`; and when the helper answers with the plain
error string, that string is returned unchanged. -/
theorem trimmed_variants (req : String → List (String × String) → String)
    (ticker freq : String) (curr_date : Option String) :
    get_balance_sheet req ticker freq curr_date =
      _trim_financial_reports (req "BALANCE_SHEET" [("symbol", ticker)]) ∧
    get_cashflow req ticker freq curr_date =
      _trim_financial_reports (req "CASH_FLOW" [("symbol", ticker)]) ∧
    get_income_statement req ticker freq curr_date =
      _trim_financial_reports (req "INCOME_STATEMENT" [("symbol", ticker)]) ∧
    (req "INCOME_STATEMENT" [("symbol", ticker)] = "Error: rate limit exceeded" →
      get_income_statement req ticker freq curr_date =
        some (.ok "Error: rate limit exceeded")) := by
  refine ⟨rfl, rfl, rfl, ?_⟩
  intro h
  rw [show get_income_statement req ticker freq curr_date =
    _trim_financial_reports (req "INCOME_STATEMENT" [("symbol", ticker)]) from rfl, h]
  rfl

/-- C8 witness: a rate-limited helper makes the income-statement
retriever return the error string unchanged. -/
theorem trimmed_variants_witness :
    get_income_statement (fun _ _ => "Error: rate limit exceeded") "IBM" "annual" none =
      some (.ok "Error: rate limit exceeded") :=
  (trimmed_variants (fun _ _ => "Error: rate limit exceeded") "IBM" "annual" none).2.2.2 rfl

/-- C9: the `freq` and `curr_date` arguments have no effect: two calls
to the same retrieval function differing only in them produce identical
results for every request helper and ticker. -/
theorem freq_date_irrelevant (req : String → List (String × String) → String)
    (ticker freq freq' : String) (cd cd' : Option String) :
    get_fundamentals req ticker cd = get_fundamentals req ticker cd' ∧
    get_balance_sheet req ticker freq cd = get_balance_sheet req ticker freq' cd' ∧
    get_cashflow req ticker freq cd = get_cashflow req ticker freq' cd' ∧
    get_income_statement req ticker freq cd = get_income_statement req ticker freq' cd' :=
  ⟨rfl, rfl, rfl, rfl⟩

/-- C10: whenever the trimmer parses its input and returns a
re-serialized string, that string is pure ASCII: `json.dumps` with the
default `ensure_ascii=True` renders every non-ASCII character as a
`\uXXXX` escape, so re-serialization is not byte-preserving for
non-ASCII payloads even when nothing is trimmed. -/
theorem trim_output_ascii (s : String) (v : PyVal) (r : String)
    (h1 : json_loads s = .val v)
    (h2 : _trim_financial_reports s = some (.ok r)) :
    ∀ c ∈ r.data, c.toNat < 128 := by
  rw [trim_eq_of_loads_val s v h1] at h2
  cases htr : trimReports v with
  | error e =>
    rw [htr] at h2
    simp [Except.map] at h2
  | ok v' =>
    rw [htr] at h2
    have hr : r = json_dumps v' := by
      injection h2 with h3
      injection h3 with h4
      exact h4.symm
    rw [hr]
    exact json_dumps_ascii v'

/-- C10 witness: the non-ASCII letter é (U+00E9) is emitted as the
escape `\u00e9`, so the output is ASCII and differs from the input. -/
theorem trim_output_ascii_witness :
    json_loads "\x7b\"a\": \"é\"\x7d" = .val (.obj [("a", .str "é")]) ∧
    _trim_financial_reports "\x7b\"a\": \"é\"\x7d" =
      some (.ok "\x7b\n  \"a\": \"\\u00e9\"\n\x7d") ∧
    ∀ c ∈ ("\x7b\n  \"a\": \"\\u00e9\"\n\x7d" : String).data, c.toNat < 128 :=
  ⟨rfl, rfl, trim_output_ascii "\x7b\"a\": \"é\"\x7d" (.obj [("a", .str "é")])
    "\x7b\n  \"a\": \"\\u00e9\"\n\x7d" rfl rfl⟩
